import Mathlib

/-!
Verification of the XHtrace probing engine (`src/traceroute.py`) against its
natural-language specification.

Modelling conventions, used throughout:
* Python byte strings are lists of naturals below 256; `struct.pack` is
  modelled field by field with its documented range checks, a failing check
  (`struct.error`) becoming `none`.
* Python floats are modelled as exact rationals.
* The nondeterministic inputs of the code — the system clock
  (`time.time()`), the random padding generator (`random.randint(0, 255)`),
  the network (which address answers a probe and after how long), and
  reverse DNS — are explicit parameters: an 8-byte timestamp value, a byte
  source `rand : Nat → Nat`, a network oracle, and a DNS oracle.
-/

namespace XHtrace

/-- Big-endian encoding of `n mod 2^(8k)` into exactly `k` bytes, the layout
produced by `struct.pack` network-order fields. -/
def natToBytesBE : Nat → Nat → List Nat
  | 0, _ => []
  | k + 1, n => natToBytesBE k (n / 256) ++ [n % 256]

/-- Model of a `struct.pack` format-`B` field: one byte, with the range check
whose failure raises `struct.error` in Python. -/
def packB (n : Nat) : Option (List Nat) :=
  if n ≤ 255 then some [n] else none

/-- Model of a `struct.pack` format-`H` field: two big-endian bytes, with the
`0 ≤ n ≤ 65535` range check. -/
def packH (n : Nat) : Option (List Nat) :=
  if n ≤ 65535 then some (natToBytesBE 2 n) else none

/-- Model of a `struct.pack` format-`I` field: four big-endian bytes, with the
32-bit range check. -/
def packI (n : Nat) : Option (List Nat) :=
  if n ≤ 4294967295 then some (natToBytesBE 4 n) else none

/-- Model of `struct.pack('!BBHHH', a, b, c, d, e)` (the ICMPv4 echo header). -/
def pack_BBHHH (a b c d e : Nat) : Option (List Nat) := do
  let x1 ← packB a
  let x2 ← packB b
  let x3 ← packH c
  let x4 ← packH d
  let x5 ← packH e
  pure (x1 ++ x2 ++ x3 ++ x4 ++ x5)

/-- Model of `struct.pack('!BBHH', a, b, c, d)` (the ICMPv6 echo header as the
source actually packs it). -/
def pack_BBHH (a b c d : Nat) : Option (List Nat) := do
  let x1 ← packB a
  let x2 ← packB b
  let x3 ← packH c
  let x4 ← packH d
  pure (x1 ++ x2 ++ x3 ++ x4)

/-- Model of `struct.pack('!HHHH', a, b, c, d)` (the UDP header). -/
def pack_HHHH (a b c d : Nat) : Option (List Nat) := do
  let x1 ← packH a
  let x2 ← packH b
  let x3 ← packH c
  let x4 ← packH d
  pure (x1 ++ x2 ++ x3 ++ x4)

/-- Sum of the big-endian 16-bit words of a byte list, source lines 53–56:
`w = (data[i] << 8) + data[i+1]` for each even index `i`. The input is padded
to even length before this runs, so the singleton case is never reached; it is
given the value the zero-padded pair would have. -/
def wordSum : List Nat → Nat
  | [] => 0
  | [a] => a * 256
  | a :: b :: rest => (a * 256 + b) + wordSum rest

/-- Model of `calculate_checksum` (source lines 46–60): pad an odd-length
input with one zero byte, add the big-endian 16-bit words, fold the carry
once (`checksum = (checksum >> 16) + (checksum & 0xffff)`), then complement
and mask (`~checksum & 0xffff`, which for a nonnegative Python integer `c`
equals `65535 - c % 65536`). -/
def calculate_checksum (data : List Nat) : Nat :=
  let padded := if data.length % 2 ≠ 0 then data ++ [0] else data
  let s := wordSum padded
  let folded := s / 65536 + s % 65536
  65535 - folded % 65536

/-- Carry-folding step iterator with an explicit step bound: folding a value
at or above `2^16` strictly decreases it, so a budget of `n` steps always
reaches a fixed point below `2^16` (proved as `fold16_lt`). -/
def fold16Go : Nat → Nat → Nat
  | 0, n => n
  | fuel + 1, n => if n < 65536 then n else fold16Go fuel (n / 65536 + n % 65536)

/-- Modelled from the spec: carry folding "to 16 bits" — repeat
`(s >> 16) + (s & 0xffff)` until the value actually fits in 16 bits, as in
the classical one's-complement checksum. -/
def fold16 (n : Nat) : Nat := fold16Go n n

/-- Modelled from the spec: "the sum of the big-endian 16-bit words of the
input (an odd-length input is first padded with one zero byte), folded to
16 bits, then complemented" — the 16-bit one's-complement checksum with the
carry folded until the sum fits in 16 bits. -/
def onesComplementChecksum (data : List Nat) : Nat :=
  let padded := if data.length % 2 ≠ 0 then data ++ [0] else data
  65535 - fold16 (wordSum padded)

/-- Model of `create_icmp_packet` (source lines 62–87): an 8-byte header
`struct.pack('!BBHHH', 8, 0, 0, packet_id, sequence)`, an 8-byte timestamp
(`struct.pack('!d', time.time())`, modelled as the big-endian bytes of an
arbitrary `tsVal`), random padding (`max(0, packet_size - 8 - 8)` bytes, byte
`i` modelled as `rand i % 256`; `Nat` subtraction models the `max(0, ·)`
clamp); the checksum is computed over the zero-checksum header plus the data
and re-packed into the header. -/
def create_icmp_packet (packet_id sequence packet_size tsVal : Nat)
    (rand : Nat → Nat) : Option (List Nat) := do
  let header0 ← pack_BBHHH 8 0 0 packet_id sequence
  let timestamp := natToBytesBE 8 tsVal
  let padding_size := packet_size - header0.length - timestamp.length
  let padding := (List.range padding_size).map fun i => rand i % 256
  let data := timestamp ++ padding
  let checksum := calculate_checksum (header0 ++ data)
  let header ← pack_BBHHH 8 0 checksum packet_id sequence
  pure (header ++ data)

/-- Model of `create_icmpv6_packet` (source lines 89–115): the source packs
`struct.pack('!BBHH', 128, 0, 0, sequence)` — a 6-byte header whose fields
are type, code, zero checksum and sequence; the `packet_id` argument is never
packed anywhere. The data part is the 8-byte timestamp plus random padding up
to `packet_size`, and line 113 re-packs the same zero-checksum header. -/
def create_icmpv6_packet (packet_id sequence packet_size tsVal : Nat)
    (rand : Nat → Nat) : Option (List Nat) := do
  let header ← pack_BBHH 128 0 0 sequence
  let timestamp := natToBytesBE 8 tsVal
  let padding_size := packet_size - header.length - timestamp.length
  let padding := (List.range padding_size).map fun i => rand i % 256
  let data := timestamp ++ padding
  let header2 ← pack_BBHH 128 0 0 sequence
  let _ := packet_id
  pure (header2 ++ data)

/-- Model of `create_udp_packet` (source lines 117–144): the payload is a
4-byte `struct.pack('!I', packet_id)`, the 8-byte timestamp, and
`max(0, (packet_size - 8) - 4 - 8)` random padding bytes; the 8-byte header
is `struct.pack('!HHHH', packet_id, port, len(data) + 8, 0)`, whose length
field is range-checked to 16 bits by `struct.pack`. -/
def create_udp_packet (packet_id port packet_size tsVal : Nat)
    (rand : Nat → Nat) : Option (List Nat) := do
  let packet_id_bytes ← packI packet_id
  let timestamp := natToBytesBE 8 tsVal
  let data_size := packet_size - 8
  let padding_size := data_size - packet_id_bytes.length - timestamp.length
  let padding := (List.range padding_size).map fun i => rand i % 256
  let data := packet_id_bytes ++ timestamp ++ padding
  let udp_header ← pack_HHHH packet_id port (data.length + 8) 0
  pure (udp_header ++ data)

/-- Delay field of a yielded hop record. The source stores strings; the
constructors record which string: `timeoutZh` is the socket strategies'
timeout sentinel `'超时'` (source line 613), `timeoutEn` is the Windows
parser's sentinel `'Timeout'` (lines 357 and 365), and `ms q` is a formatted
millisecond value (`f'{delay:.2f}ms'` on the socket paths, `f'{delay:.1f} ms'`
on the Windows path). -/
inductive PyDelay
  | timeoutZh
  | timeoutEn
  | ms (q : ℚ)
deriving DecidableEq

/-- Rendering of a `PyDelay` back to the string the source stores. The
formatted-millisecond case abstracts the float formatting, which no claim
inspects; the two sentinels are the exact source literals. -/
def delayString : PyDelay → String
  | .timeoutZh => "超时"
  | .timeoutEn => "Timeout"
  | .ms q => toString q ++ "ms"

/-- Yielded hop dictionary of the socket-based strategies
(`_icmp_traceroute`, `_icmpv6_traceroute`, `_udp_traceroute`): keys `hop`,
`ip`, `hostname`, `delay`, and the optional `warning` key (`warning = true`
exactly when the routing-loop warning was set on the dictionary). -/
structure HopInfo where
  hop : Nat
  ip : String
  hostname : String
  delay : PyDelay
  warning : Bool
deriving DecidableEq

/-- One yielded element of a socket-strategy run:
`(hop_info, progress, is_destination)`. -/
abbrev TraceYield := HopInfo × ℚ × Bool

/-- Retry loop of the socket strategies (source lines 553–566): attempts
`0, …, max_retries - 1` probe the network in order and the first response
wins. `net ttl attempt` is the network oracle: `some (addr, delayMs)` when
`send_receive_packet` returns a responder, `none` on a timeout. -/
def bestResponse (net : Nat → Nat → Option (String × ℚ))
    (max_retries ttl : Nat) : Option (String × ℚ) :=
  (List.range max_retries).findSome? (net ttl)

/-- Main loop body of `_icmp_traceroute` (source lines 547–619), shared
verbatim by `_icmpv6_traceroute` (lines 643–718) and `_udp_traceroute`
(lines 742–817), which differ only in socket type and packet builder:
recursion over the remaining TTL values carrying the visited-address set.
On a response the hostname is resolved (DNS oracle, falling back to the
address), then the loop check runs: a repeated address yields a warning
record with progress `int((ttl / max_hops) * 100)` and ends the run; a fresh
address is added to the visited set and yielded with progress
`min(1, ttl / max_hops)`, overridden to `1` on the destination, which also
ends the run. A TTL with no response yields the `'*'`/`'超时'` sentinel
record and the run continues. -/
def icmpGo (net : Nat → Nat → Option (String × ℚ)) (dns : String → Option String)
    (target_ip : String) (resolve_dns : Bool) (max_retries max_hops : Nat) :
    List Nat → List String → List TraceYield
  | [], _ => []
  | ttl :: rest, visited =>
    match bestResponse net max_retries ttl with
    | some (addr, delay) =>
      let hostname := if resolve_dns then (dns addr).getD addr else addr
      if addr ∈ visited then
        [(⟨ttl, addr, hostname, .ms delay, true⟩,
          ((⌊(ttl : ℚ) / (max_hops : ℚ) * 100⌋ : ℤ) : ℚ), false)]
      else
        let is_destination := addr = target_ip
        let progress0 := min 1 ((ttl : ℚ) / (max_hops : ℚ))
        let progress := if is_destination then 1 else progress0
        (⟨ttl, addr, hostname, .ms delay, false⟩, progress, is_destination) ::
          (if is_destination then [] else
            icmpGo net dns target_ip resolve_dns max_retries max_hops rest
              (addr :: visited))
    | none =>
      (⟨ttl, "*", "", .timeoutZh, false⟩,
        min 1 ((ttl : ℚ) / (max_hops : ℚ)), false) ::
        icmpGo net dns target_ip resolve_dns max_retries max_hops rest visited

/-- Model of `_icmp_traceroute` (source lines 531–625): TTL runs over
`1, …, max_hops` and the visited set starts empty. The socket lifecycle and
the trailing generic exception handler are outside the model, the oracles
being total. -/
def icmpTraceroute (net : Nat → Nat → Option (String × ℚ))
    (dns : String → Option String) (target_ip : String) (resolve_dns : Bool)
    (max_retries max_hops : Nat) : List TraceYield :=
  icmpGo net dns target_ip resolve_dns max_retries max_hops
    (List.range' 1 max_hops) []

/-- Extraction result of one numbered `tracert` output line. Source lines
239–341 parse a raw text line into these fields; the text parsing itself
(regular expressions, bracket handling) is abstracted as the model's input:
the leading hop-number token, the parsed RTT values, the extracted address
(`some "*"` is the timeout sentinel; `none` models a line where no address
was extracted, Python `ip = None`), and the extracted hostname. -/
structure WinLine where
  hopTok : Nat
  rtts : List ℚ
  ip : Option String
  hostname : Option String
deriving DecidableEq

/-- Yielded hop dictionary of `_windows_tracert` (the `raw_data` field, a
copy of the input line, is omitted). -/
structure WinHopInfo where
  hop : Nat
  ip : Option String
  hostname : String
  delay : PyDelay
  warning : Bool
deriving DecidableEq

/-- One yielded element of the Windows strategy. -/
abbrev WinYield := WinHopInfo × ℚ × Bool

/-- Per-line record construction of `_windows_tracert` (source lines
352–397): the average delay is `'Timeout'` when the address is the `'*'`
sentinel or no RTT was parsed and the mean of the parsed RTTs otherwise; the
loop warning is checked against the visited set (`'*'` is never checked nor
added) and — unlike the socket strategies — the run does *not* stop on a
loop warning; progress is `min(1, current_hop / max_hops)` with
`current_hop` counting parsed lines, overridden to `1` on the destination,
which ends the run. The end-of-stream stderr/exit-code error yield (lines
400–410) fires only when no hop line was parsed and is omitted here. -/
def winGo (target_ip : String) (max_hops : Nat) :
    List WinLine → Nat → List (Option String) → List WinYield
  | [], _, _ => []
  | l :: rest, current_hop, visited =>
    let ch := current_hop + 1
    let avg : PyDelay :=
      if l.ip = some "*" then .timeoutEn
      else if l.rtts ≠ [] then .ms (l.rtts.sum / (l.rtts.length : ℚ))
      else .timeoutEn
    let isLoop : Bool := decide (l.ip ≠ some "*" ∧ l.ip ∈ visited)
    let visited2 :=
      if l.ip ≠ some "*" ∧ l.ip ∉ visited then l.ip :: visited else visited
    let info : WinHopInfo := ⟨l.hopTok, l.ip, l.hostname.getD "", avg, isLoop⟩
    let is_destination := l.ip = some target_ip
    let progress :=
      if is_destination then 1 else min 1 ((ch : ℚ) / (max_hops : ℚ))
    (info, progress, is_destination) ::
      (if is_destination then [] else winGo target_ip max_hops rest ch visited2)

/-- Model of `_windows_tracert` (source lines 146–429) at the granularity of
already-extracted hop lines: `current_hop` starts at 0 and the visited set
starts empty. -/
def windowsTracert (target_ip : String) (max_hops : Nat)
    (lines : List WinLine) : List WinYield :=
  winGo target_ip max_hops lines 0 []

/-- Error-message constants of the source (lines 34–40), with `{}`
interpolation modelled by string append. -/
def ERROR_UNSUPPORTED_PROTOCOL (p : String) : String :=
  "Unsupported protocol: " ++ p

/-- Invalid-hops message, source line 35. -/
def ERROR_INVALID_HOPS (n : ℤ) : String :=
  "Hops must be between 1 and 255: " ++ toString n

/-- Invalid-timeout message, source line 36. -/
def ERROR_INVALID_TIMEOUT (t : ℚ) : String :=
  "Timeout must be positive: " ++ toString t

/-- Address-resolution failure message, source line 37. -/
def ERROR_ADDRESS_RESOLUTION : String := "Could not resolve target: "

/-- Items yielded by the top-level `traceroute` generator: an error
dictionary, a socket-strategy hop tuple, or a Windows-strategy hop tuple. -/
inductive YieldItem
  | err (msg : String)
  | hopV (y : TraceYield)
  | hopW (y : WinYield)
deriving DecidableEq

/-- Model of the top-level `traceroute` entry point (source lines 825–1034).
Parameter validation (lines 867–875) runs first, in source order; a failed
check raises `ValueError`, modelled as `Except.error`, before the resolver
oracle is ever consulted. Then the target is resolved — the
`getaddrinfo`-preference loop of lines 878–919 is an external lookup and is
modelled as the oracle `resolver target ipv6`, `none` yielding the
address-resolution error record and ending the run. On Windows the run is
delegated to `_windows_tracert` for every protocol; otherwise `icmp` and
`udp` dispatch to the socket strategies (all of which share the `icmpGo`
yield structure) and `tcp` yields an unsupported-protocol error record
(line 1026). The wrapper's pass-through loops re-yield each tuple unchanged
and break on the destination flag, which the strategies already guarantee. -/
def traceroute (resolver : String → Bool → Option (String × Nat))
    (net : Nat → Nat → Option (String × ℚ)) (dns : String → Option String)
    (isWindows : Bool) (winLines : List WinLine) (target : String)
    (max_hops : ℤ) (timeout : ℚ) (resolve_dns : Bool) (protocol : String)
    (max_retries : Nat) (ipv6 : Bool) : Except String (List YieldItem) :=
  if protocol ∉ ["udp", "icmp", "tcp"] then
    .error (ERROR_UNSUPPORTED_PROTOCOL protocol)
  else if max_hops < 1 ∨ max_hops > 255 then
    .error (ERROR_INVALID_HOPS max_hops)
  else if timeout ≤ 0 then
    .error (ERROR_INVALID_TIMEOUT timeout)
  else
    match resolver target ipv6 with
    | none => .ok [.err ERROR_ADDRESS_RESOLUTION]
    | some (target_ip, _) =>
      if isWindows then
        .ok ((windowsTracert target_ip max_hops.toNat winLines).map .hopW)
      else if protocol = "tcp" then
        .ok [.err (ERROR_UNSUPPORTED_PROTOCOL protocol)]
      else
        .ok ((icmpTraceroute net dns target_ip resolve_dns max_retries
          max_hops.toNat).map .hopV)

/-- What one iteration of `mtr`'s inner loop (source lines 1116–1173) reads
from a yielded traceroute tuple: `hop_info.get('hop')`, `.get('ip')`,
`.get('hostname')`, `.get('delay')` and the destination flag. -/
structure HopObs where
  hop : Nat
  ip : String
  hostname : String
  delay : PyDelay
  isDest : Bool
deriving DecidableEq

/-- Sample-extraction branch of `mtr` (source lines 1150–1169): a delay
counts as a sample when it is not the `'Timeout'` sentinel and its string
contains `'ms'`, in which case the numeric part is parsed back; the socket
strategies' `'超时'` sentinel differs from `'Timeout'` but contains no
`'ms'`, so it yields no sample either. -/
def parsedSample : PyDelay → Option ℚ
  | .timeoutEn => none
  | .timeoutZh => none
  | .ms q => some q

/-- Per-hop aggregate of `mtr`, the dictionary initialised at source lines
1133–1143. `min_delay = none` models the initial `float('inf')`. -/
structure HopStat where
  hop : Nat
  ip : String
  hostname : String
  delays : List ℚ
  loss_percent : ℚ
  min_delay : Option ℚ
  max_delay : ℚ
  avg_delay : ℚ
  std_dev : ℚ
deriving DecidableEq

/-- Fresh `hop_data` entry for a first observation (source lines 1133–1143). -/
def initStat (o : HopObs) : HopStat :=
  ⟨o.hop, o.ip, o.hostname, [], 0, none, 0, 0, 0⟩

/-- Per-observation update of an existing entry (source lines 1145–1169):
the hostname is filled in only when the stored one is empty and the new one
is not; a parsed delay is appended to `delays` and folded into the
incremental min/max; the stored address is never touched. -/
def updateEntry (o : HopObs) (s : HopStat) : HopStat :=
  let s1 :=
    if o.hostname ≠ "" ∧ s.hostname = "" then { s with hostname := o.hostname }
    else s
  match parsedSample o.delay with
  | some v =>
    { s1 with
      delays := s1.delays ++ [v]
      min_delay := some (match s1.min_delay with | none => v | some m => min m v)
      max_delay := max s1.max_delay v }
  | none => s1

/-- Processing of one yielded observation against the `hop_data` dictionary,
modelled as an association list keyed by hop number (lines 1128–1169). -/
def processObs (d : List (Nat × HopStat)) (o : HopObs) : List (Nat × HopStat) :=
  match List.lookup o.hop d with
  | none => d ++ [(o.hop, updateEntry o (initStat o))]
  | some _ => d.map fun e => if e.1 = o.hop then (e.1, updateEntry o e.2) else e

/-- Inner-loop truncation of `mtr` (line 1171–1173): observations are
processed up to and including the first destination record. -/
def takeThroughDest : List HopObs → List HopObs
  | [] => []
  | o :: rest => if o.isDest then [o] else o :: takeThroughDest rest

/-- One full cycle's worth of observation processing. -/
def processCycle (d : List (Nat × HopStat)) (obs : List HopObs) :
    List (Nat × HopStat) :=
  (takeThroughDest obs).foldl processObs d

/-- Arithmetic mean, `statistics.mean`. -/
def listMean (l : List ℚ) : ℚ := l.sum / (l.length : ℚ)

/-- Sample standard deviation, `statistics.stdev`: the square root of the
sample variance. The source computes a floating-point square root;
`Rat.sqrt` is the executable stand-in — every claim about `std_dev`
concerns only the `length ≤ 1` branch, where the source returns the exact
constant 0 and this function is never consulted. -/
def sampleStdDev (l : List ℚ) : ℚ :=
  Rat.sqrt ((l.map (fun x => (x - listMean l) ^ 2)).sum / ((l.length : ℚ) - 1))

/-- Per-entry statistics recomputation after a cycle (source lines
1185–1207 and, with the final denominator, 1226–1247): `loss_percent`
against `n` attempted cycles, `avg_delay`/`std_dev` recomputed from the full
`delays` list (0 and 0 when empty, `std_dev = 0` when fewer than two
samples), and a still-infinite `min_delay` replaced — persistently, since
the dictionary entry itself is mutated — by 0. -/
def updateStats (n : Nat) (s : HopStat) : HopStat :=
  let s1 := { s with loss_percent := ((n : ℚ) - (s.delays.length : ℚ)) / (n : ℚ) * 100 }
  let s2 :=
    if s1.delays ≠ [] then
      { s1 with
        avg_delay := listMean s1.delays
        std_dev := if s1.delays.length > 1 then sampleStdDev s1.delays else 0 }
    else { s1 with avg_delay := 0, std_dev := 0 }
  if s2.min_delay = none then { s2 with min_delay := some 0 } else s2

/-- Statistics pass over the whole dictionary with denominator `n`. -/
def updateAllStats (n : Nat) (d : List (Nat × HopStat)) : List (Nat × HopStat) :=
  d.map fun e => (e.1, updateStats n e.2)

/-- Snapshot list `all_hops_data`: the entries in ascending hop order
(`for hop_num in sorted(hop_data.keys())`). -/
def snapshot (d : List (Nat × HopStat)) : List HopStat :=
  ((d.map Prod.fst).mergeSort (fun a b => decide (a ≤ b))).filterMap
    fun k => List.lookup k d

/-- Cycle-summary metadata (source lines 1212–1221 and 1250–1259); the
constant target/protocol description fields are omitted. -/
structure MtrSummary where
  cycles_complete : Nat
  total_cycles : Nat
  total_hops : Nat
deriving DecidableEq

/-- Cycle loop of `mtr` (source lines 1106–1263). Each input element is the
outcome of one traceroute run: `none` when the run raised
`TracerouteError`, in which case the cycle is skipped (`continue`, line
1178 — no statistics pass and no yield, though the cycle counter still
advances); `some obs` is the run's yielded stream. A completed cycle folds
its observations into the dictionary, recomputes statistics against
`cycle + 1` attempted cycles, and yields `(summary, (cycle+1)/count,
all_hops_data)`. After the last cycle the statistics are recomputed once
more against the fixed `count` denominator and a terminal summary with
progress 1 is yielded. -/
def mtrGo (count : Nat) :
    List (Option (List HopObs)) → Nat → List (Nat × HopStat) →
    List (MtrSummary × ℚ × List HopStat)
  | [], _, d =>
    let d2 := updateAllStats count d
    [(⟨count, count, d2.length⟩, 1, snapshot d2)]
  | c :: rest, cycle, d =>
    match c with
    | none => mtrGo count rest (cycle + 1) d
    | some obs =>
      let d1 := processCycle d obs
      let d2 := updateAllStats (cycle + 1) d1
      (⟨cycle + 1, count, (snapshot d2).length⟩, ((cycle : ℚ) + 1) / (count : ℚ),
        snapshot d2) :: mtrGo count rest (cycle + 1) d2

/-- Model of `mtr` (source lines 1036–1263) at the aggregation level: the
protocol validation and target resolution of lines 1069–1099 precede the
loop and are outside the aggregation claims; `for cycle in range(count)`
performs exactly `count` runs, so the input list of run outcomes has length
`count`. -/
def mtr (cycles : List (Option (List HopObs))) :
    List (MtrSummary × ℚ × List HopStat) :=
  mtrGo cycles.length cycles 0 []

/-- Byte layout of `struct.pack('!BBHHH', 8, 0, c, id, seq)` when every
field is in range: used to state packet-builder theorems. -/
def icmpHeaderBytes (c id seq : Nat) : List Nat :=
  [8] ++ [0] ++ natToBytesBE 2 c ++ natToBytesBE 2 id ++ natToBytesBE 2 seq

/-- Data part of the ICMPv4 echo packet: 8 timestamp bytes plus
`max(0, packet_size - 16)` padding bytes. -/
def icmpDataBytes (ps ts : Nat) (rand : Nat → Nat) : List Nat :=
  natToBytesBE 8 ts ++ (List.range (ps - 8 - 8)).map fun i => rand i % 256

/-- Byte layout of the UDP header `struct.pack('!HHHH', id, port, len, 0)`
when every field is in range. -/
def udpHeaderBytes (id port len : Nat) : List Nat :=
  natToBytesBE 2 id ++ natToBytesBE 2 port ++ natToBytesBE 2 len ++
    natToBytesBE 2 0

/-- Data part of the UDP probe payload: 4 identifier bytes, 8 timestamp
bytes, `max(0, packet_size - 20)` padding bytes. -/
def udpDataBytes (id ps ts : Nat) (rand : Nat → Nat) : List Nat :=
  natToBytesBE 4 id ++ natToBytesBE 8 ts ++
    (List.range (ps - 8 - 4 - 8)).map fun i => rand i % 256

/-- The stream of observations `mtr` actually processes over a whole run:
failed cycles contribute nothing, completed cycles contribute their
destination-truncated observation list, in cycle order. -/
def processedObs (cycles : List (Option (List HopObs))) : List HopObs :=
  ((cycles.filterMap id).map takeThroughDest).flatten

/-- First observation carrying a given hop number. -/
def firstObsFor (k : Nat) (obs : List HopObs) : Option HopObs :=
  obs.find? fun o => o.hop == k

/-- Non-empty hostnames observed for a given hop number, in order. -/
def hostnameCandidates (k : Nat) (obs : List HopObs) : List String :=
  ((obs.filter fun o => o.hop == k).map HopObs.hostname).filter
    fun s => s ≠ ""

/-- First non-empty hostname observed for a given hop number (empty when
none was). -/
def firstHostnameFor (k : Nat) (obs : List HopObs) : String :=
  (hostnameCandidates k obs).headD ""

/-- Relation between the observations processed so far and the `hop_data`
dictionary: every entry is keyed by its own hop number, carries the address
of the first observation of that hop, and the first non-empty hostname
observed for it; hops never observed have no entry. -/
def MtrInv (seen : List HopObs) (d : List (Nat × HopStat)) : Prop :=
  (∀ k, List.lookup k d = none → firstObsFor k seen = none) ∧
  (∀ k v, List.lookup k d = some v →
    v.hop = k ∧
    (∃ o, firstObsFor k seen = some o ∧ v.ip = o.ip) ∧
    v.hostname = firstHostnameFor k seen)

/-! Helper lemmas shared by several claim theorems. -/

theorem natToBytesBE_length (k : Nat) : ∀ n, (natToBytesBE k n).length = k := by
  induction k with
  | zero => intro n; rfl
  | succ k ih => intro n; simp [natToBytesBE, ih]

theorem fold16Go_of_lt (fuel n : Nat) (h : n < 65536) : fold16Go fuel n = n := by
  cases fuel with
  | zero => rfl
  | succ f => simp [fold16Go, h]

theorem fold16Go_lt : ∀ fuel n, n ≤ fuel → fold16Go fuel n < 65536 := by
  intro fuel
  induction fuel with
  | zero => intro n hn; have h0 : n = 0 := Nat.le_zero.mp hn; subst h0; decide
  | succ f ih =>
    intro n hn
    by_cases h : n < 65536
    · simp [fold16Go, h]
    · have h3 : 65536 * (n / 65536) + n % 65536 = n := Nat.div_add_mod n 65536
      have hb : n % 65536 < 65536 := Nat.mod_lt _ (by norm_num)
      simp only [fold16Go, h, if_false]
      exact ih _ (by omega)

/-- A value returned by `fold16` genuinely fits in 16 bits. -/
theorem fold16_lt (n : Nat) : fold16 n < 65536 := fold16Go_lt n n le_rfl

/-- When a single carry fold already lands below `2^16`, the full fold
agrees with it. -/
theorem fold16_single (s : Nat) (h : s / 65536 + s % 65536 < 65536) :
    fold16 s = s / 65536 + s % 65536 := by
  unfold fold16
  cases s with
  | zero => simp [fold16Go]
  | succ f =>
    by_cases hs : f + 1 < 65536
    · simp [fold16Go, hs, Nat.div_eq_of_lt hs, Nat.mod_eq_of_lt hs]
    · simp only [fold16Go, hs, if_false]
      exact fold16Go_of_lt _ _ h

/-! Claim theorems. -/

theorem mem_dropLast_cons {α : Type _} {x y : α} {l : List α}
    (hy : y ∈ (x :: l).dropLast) : y = x ∨ y ∈ l.dropLast := by
  cases l with
  | nil => simp at hy
  | cons z zs =>
    rw [List.dropLast_cons₂] at hy
    exact List.mem_cons.mp hy

theorem mem_dropLast_cons_right {α : Type _} {x z : α} {l : List α}
    (hz : z ∈ l.dropLast) : z ∈ (x :: l).dropLast := by
  cases l with
  | nil => simp at hz
  | cons a as =>
    rw [List.dropLast_cons₂]
    exact List.mem_cons_of_mem _ hz

theorem self_mem_dropLast_cons {α : Type _} (x : α) {l : List α}
    (h : l ≠ []) : x ∈ (x :: l).dropLast := by
  cases l with
  | nil => exact absurd rfl h
  | cons a as =>
    rw [List.dropLast_cons₂]
    exact List.mem_cons_self _ _

theorem getLast?_cons_cases {α : Type _} {x y : α} {l : List α}
    (h : (x :: l).getLast? = some y) :
    (l = [] ∧ y = x) ∨ l.getLast? = some y := by
  cases l with
  | nil =>
    simp only [List.getLast?_singleton, Option.some.injEq] at h
    exact Or.inl ⟨rfl, h.symm⟩
  | cons a as =>
    rw [List.getLast?_cons_cons] at h
    exact Or.inr h

/-- Structure of a socket-strategy run, for any visited set: every record
before the last has a false destination flag and no loop warning, and a
loop-warned final record repeats either a visited address or the address of
an earlier yielded record. -/
theorem icmpGo_spec (net : Nat → Nat → Option (String × ℚ))
    (dns : String → Option String) (target : String) (rd : Bool)
    (mr mh : Nat) :
    ∀ (ttls : List Nat) (visited : List String),
      (∀ y ∈ (icmpGo net dns target rd mr mh ttls visited).dropLast,
        y.2.2 = false ∧ y.1.warning = false) ∧
      (∀ y, (icmpGo net dns target rd mr mh ttls visited).getLast? = some y →
        y.1.warning = true →
        y.1.ip ∈ visited ∨
          ∃ z ∈ (icmpGo net dns target rd mr mh ttls visited).dropLast,
            z.1.ip = y.1.ip) := by
  intro ttls
  induction ttls with
  | nil =>
    intro visited
    exact ⟨fun y hy => by simp [icmpGo] at hy,
      fun y hy => by simp [icmpGo] at hy⟩
  | cons ttl rest ih =>
    intro visited
    cases hbr : bestResponse net mr ttl with
    | none =>
      have hstep : icmpGo net dns target rd mr mh (ttl :: rest) visited =
          (⟨ttl, "*", "", .timeoutZh, false⟩,
            min 1 ((ttl : ℚ) / (mh : ℚ)), false) ::
            icmpGo net dns target rd mr mh rest visited := by
        simp [icmpGo, hbr]
      rw [hstep]
      constructor
      · intro y hy
        rcases mem_dropLast_cons hy with h | h
        · subst h; exact ⟨rfl, rfl⟩
        · exact (ih visited).1 y h
      · intro y hlast hw
        rcases getLast?_cons_cases hlast with ⟨h1, h2⟩ | h1
        · subst h2; simp at hw
        · rcases (ih visited).2 y h1 hw with h | ⟨z, hz, hip⟩
          · exact Or.inl h
          · exact Or.inr ⟨z, mem_dropLast_cons_right hz, hip⟩
    | some p =>
      obtain ⟨addr, delay⟩ := p
      by_cases hv : addr ∈ visited
      · have hstep : icmpGo net dns target rd mr mh (ttl :: rest) visited =
            [(⟨ttl, addr, if rd then (dns addr).getD addr else addr,
              .ms delay, true⟩,
              ((⌊(ttl : ℚ) / (mh : ℚ) * 100⌋ : ℤ) : ℚ), false)] := by
          simp [icmpGo, hbr, hv]
        rw [hstep]
        constructor
        · intro y hy; simp at hy
        · intro y hlast hw
          simp only [List.getLast?_singleton, Option.some.injEq] at hlast
          subst hlast
          exact Or.inl hv
      · by_cases hd : addr = target
        · have hv2 : target ∉ visited := by rw [← hd]; exact hv
          have hstep : icmpGo net dns target rd mr mh (ttl :: rest) visited =
              [(⟨ttl, addr, if rd then (dns addr).getD addr else addr,
                .ms delay, false⟩, 1, true)] := by
            simp [icmpGo, hbr, hv, hd, hv2]
          rw [hstep]
          constructor
          · intro y hy; simp at hy
          · intro y hlast hw
            simp only [List.getLast?_singleton, Option.some.injEq] at hlast
            subst hlast
            simp at hw
        · have hstep : icmpGo net dns target rd mr mh (ttl :: rest) visited =
              (⟨ttl, addr, if rd then (dns addr).getD addr else addr,
                .ms delay, false⟩,
                min 1 ((ttl : ℚ) / (mh : ℚ)), false) ::
                icmpGo net dns target rd mr mh rest (addr :: visited) := by
            simp [icmpGo, hbr, hv, hd]
          rw [hstep]
          constructor
          · intro y hy
            rcases mem_dropLast_cons hy with h | h
            · subst h; exact ⟨rfl, rfl⟩
            · exact (ih (addr :: visited)).1 y h
          · intro y hlast hw
            rcases getLast?_cons_cases hlast with ⟨h1, h2⟩ | h1
            · subst h2; simp at hw
            · have hne : icmpGo net dns target rd mr mh rest
                  (addr :: visited) ≠ [] := by
                intro hnil; rw [hnil] at h1; simp at h1
              rcases (ih (addr :: visited)).2 y h1 hw with h | ⟨z, hz, hip⟩
              · rcases List.mem_cons.mp h with h2 | h2
                · refine Or.inr ⟨_, self_mem_dropLast_cons _ hne, ?_⟩
                  exact h2.symm
                · exact Or.inl h2
              · exact Or.inr ⟨z, mem_dropLast_cons_right hz, hip⟩

/-- Structure of a Windows-strategy run, for any line counter and visited
set: every record before the last has a false destination flag (the run
stops only on the destination), and any loop-warned record — the run does
not stop on those — repeats a visited address or the address of an
earlier yielded record. -/
theorem winGo_spec (target : String) (mh : Nat) :
    ∀ (lines : List WinLine) (ch : Nat) (visited : List (Option String)),
      (∀ y ∈ (winGo target mh lines ch visited).dropLast, y.2.2 = false) ∧
      (∀ (i : Nat) (y : WinYield),
        (winGo target mh lines ch visited)[i]? = some y →
        y.1.warning = true →
        y.1.ip ∈ visited ∨
          ∃ (j : Nat) (z : WinYield), j < i ∧
            (winGo target mh lines ch visited)[j]? = some z ∧
            z.1.ip = y.1.ip) := by
  intro lines
  induction lines with
  | nil =>
    intro ch visited
    constructor
    · intro y hy; simp [winGo] at hy
    · intro i y hy; simp [winGo] at hy
  | cons l rest ih =>
    intro ch visited
    have hstep : winGo target mh (l :: rest) ch visited =
        (⟨l.hopTok, l.ip, l.hostname.getD "",
          if l.ip = some "*" then .timeoutEn
          else if l.rtts ≠ [] then .ms (l.rtts.sum / (l.rtts.length : ℚ))
          else .timeoutEn,
          decide (l.ip ≠ some "*" ∧ l.ip ∈ visited)⟩,
          if l.ip = some target then 1
            else min 1 (((ch + 1 : Nat) : ℚ) / (mh : ℚ)),
          decide (l.ip = some target)) ::
          (if l.ip = some target then []
            else winGo target mh rest (ch + 1)
              (if l.ip ≠ some "*" ∧ l.ip ∉ visited then l.ip :: visited
                else visited)) := by
      simp only [winGo]
    rw [hstep]
    by_cases hd : l.ip = some target
    · rw [if_pos hd, if_pos hd]
      constructor
      · intro y hy; simp at hy
      · intro i y hy hw
        cases i with
        | zero =>
          rw [List.getElem?_cons_zero, Option.some.injEq] at hy
          subst hy
          simp only [decide_eq_true_eq] at hw
          exact Or.inl hw.2
        | succ i => simp at hy
    · rw [if_neg hd, if_neg hd]
      set visited2 := if l.ip ≠ some "*" ∧ l.ip ∉ visited
        then l.ip :: visited else visited with hvis2
      constructor
      · intro y hy
        rcases mem_dropLast_cons hy with h | h
        · subst h
          exact decide_eq_false hd
        · exact (ih (ch + 1) visited2).1 y h
      · intro i y hy hw
        cases i with
        | zero =>
          rw [List.getElem?_cons_zero, Option.some.injEq] at hy
          subst hy
          simp only [decide_eq_true_eq] at hw
          exact Or.inl hw.2
        | succ i =>
          rw [List.getElem?_cons_succ] at hy
          rcases (ih (ch + 1) visited2).2 i y hy hw with h | ⟨j, z, hj, hz, hzip⟩
          · rw [hvis2] at h
            by_cases hcond : l.ip ≠ some "*" ∧ l.ip ∉ visited
            · rw [if_pos hcond] at h
              rcases List.mem_cons.mp h with h2 | h2
              · exact Or.inr ⟨0, _, Nat.succ_pos i,
                  List.getElem?_cons_zero, h2.symm⟩
              · exact Or.inl h2
            · rw [if_neg hcond] at h
              exact Or.inl h
          · exact Or.inr ⟨j + 1, z, Nat.succ_lt_succ hj,
              by rw [List.getElem?_cons_succ]; exact hz, hzip⟩

/-- C2 (counterexample): in the Windows tracert strategy a loop-marked
record is *not* the last record of the run. With four parsed lines whose
third repeats the first address, the record at index 2 carries the loop
warning and a fourth record follows it. -/
theorem c2_windows_loop_record_not_last :
    windowsTracert "9.9.9.9" 10
        [⟨1, [10], some "1.1.1.1", none⟩, ⟨2, [20], some "2.2.2.2", none⟩,
         ⟨3, [30], some "1.1.1.1", none⟩, ⟨4, [40], some "3.3.3.3", none⟩] =
      [(⟨1, some "1.1.1.1", "", .ms 10, false⟩, 1/10, false),
       (⟨2, some "2.2.2.2", "", .ms 20, false⟩, 1/5, false),
       (⟨3, some "1.1.1.1", "", .ms 30, true⟩, 3/10, false),
       (⟨4, some "3.3.3.3", "", .ms 40, false⟩, 2/5, false)] ∧
    ((windowsTracert "9.9.9.9" 10
        [⟨1, [10], some "1.1.1.1", none⟩, ⟨2, [20], some "2.2.2.2", none⟩,
         ⟨3, [30], some "1.1.1.1", none⟩,
         ⟨4, [40], some "3.3.3.3", none⟩])[2]?.map
      (fun y => y.1.warning) = some true) ∧
    (windowsTracert "9.9.9.9" 10
        [⟨1, [10], some "1.1.1.1", none⟩, ⟨2, [20], some "2.2.2.2", none⟩,
         ⟨3, [30], some "1.1.1.1", none⟩,
         ⟨4, [40], some "3.3.3.3", none⟩])[3]? ≠ none := by
  have hrun : windowsTracert "9.9.9.9" 10
        [⟨1, [10], some "1.1.1.1", none⟩, ⟨2, [20], some "2.2.2.2", none⟩,
         ⟨3, [30], some "1.1.1.1", none⟩, ⟨4, [40], some "3.3.3.3", none⟩] =
      [(⟨1, some "1.1.1.1", "", .ms 10, false⟩, 1/10, false),
       (⟨2, some "2.2.2.2", "", .ms 20, false⟩, 1/5, false),
       (⟨3, some "1.1.1.1", "", .ms 30, true⟩, 3/10, false),
       (⟨4, some "3.3.3.3", "", .ms 40, false⟩, 2/5, false)] := by
    have e1 : ("1.1.1.1" : String) ≠ "9.9.9.9" := by decide
    have e2 : ("2.2.2.2" : String) ≠ "9.9.9.9" := by decide
    have e3 : ("3.3.3.3" : String) ≠ "9.9.9.9" := by decide
    have e4 : ("1.1.1.1" : String) ≠ "*" := by decide
    have e5 : ("2.2.2.2" : String) ≠ "*" := by decide
    have e6 : ("3.3.3.3" : String) ≠ "*" := by decide
    have e7 : ("2.2.2.2" : String) ≠ "1.1.1.1" := by decide
    have e8 : ("3.3.3.3" : String) ≠ "1.1.1.1" := by decide
    have e9 : ("3.3.3.3" : String) ≠ "2.2.2.2" := by decide
    norm_num [windowsTracert, winGo, min_def, e1, e2, e3, e4, e5, e6, e7,
      e8, e9]
  refine ⟨hrun, ?_, ?_⟩
  · rw [hrun]; rfl
  · rw [hrun]; simp

/-- C2 (amended): a destination-flagged record ends the run in every
strategy, so all records before the last have `isDestination = false`; in
the socket strategies a loop-marked record is additionally always the last
record and repeats the address of an earlier record of the same run; in the
Windows tracert strategy a loop-marked record also repeats the address of
an earlier record, but the run continues past it (the counterexample), so
only the destination stops that strategy. -/
theorem c2_terminal_records (net : Nat → Nat → Option (String × ℚ))
    (dns : String → Option String) (target : String) (rd : Bool)
    (mr mh : Nat) (wt : String) (wmh : Nat) (lines : List WinLine) :
    (∀ y ∈ (icmpTraceroute net dns target rd mr mh).dropLast,
      y.2.2 = false ∧ y.1.warning = false) ∧
    (∀ y, (icmpTraceroute net dns target rd mr mh).getLast? = some y →
      y.1.warning = true →
      ∃ z ∈ (icmpTraceroute net dns target rd mr mh).dropLast,
        z.1.ip = y.1.ip) ∧
    (∀ y ∈ (windowsTracert wt wmh lines).dropLast, y.2.2 = false) ∧
    (∀ (i : Nat) (y : WinYield), (windowsTracert wt wmh lines)[i]? = some y →
      y.1.warning = true →
      ∃ (j : Nat) (z : WinYield), j < i ∧
        (windowsTracert wt wmh lines)[j]? = some z ∧
        z.1.ip = y.1.ip) := by
  refine ⟨(icmpGo_spec net dns target rd mr mh _ []).1, ?_,
    (winGo_spec wt wmh lines 0 []).1, ?_⟩
  · intro y hlast hw
    rcases (icmpGo_spec net dns target rd mr mh _ []).2 y hlast hw with h | h
    · simp at h
    · exact h
  · intro i y hy hw
    rcases (winGo_spec wt wmh lines 0 []).2 i y hy hw with h | h
    · simp at h
    · exact h

/-- Witness for C2 (amended) at a 2-hop socket run whose second response
repeats the first address: the loop-marked last record repeats the address
of the earlier record. -/
theorem c2_terminal_records_witness :
    ((icmpTraceroute
        (fun ttl _ => if ttl = 1 then some ("10.0.0.1", (5 : ℚ))
          else some ("10.0.0.1", 6))
        (fun _ => none) "8.8.8.8" false 1 2).getLast? =
      some (⟨2, "10.0.0.1", "10.0.0.1", .ms 6, true⟩, 100, false) ∧
      ((⟨2, "10.0.0.1", "10.0.0.1", .ms 6, true⟩ : HopInfo), (100 : ℚ),
        false).1.warning = true) ∧
    (∃ z ∈ (icmpTraceroute
        (fun ttl _ => if ttl = 1 then some ("10.0.0.1", (5 : ℚ))
          else some ("10.0.0.1", 6))
        (fun _ => none) "8.8.8.8" false 1 2).dropLast,
      z.1.ip = ((⟨2, "10.0.0.1", "10.0.0.1", .ms 6, true⟩ : HopInfo), (100 : ℚ),
        false).1.ip) := by
  have hrun : icmpTraceroute
      (fun ttl _ => if ttl = 1 then some ("10.0.0.1", (5 : ℚ))
        else some ("10.0.0.1", 6))
      (fun _ => none) "8.8.8.8" false 1 2 =
      [(⟨1, "10.0.0.1", "10.0.0.1", .ms 5, false⟩, 1/2, false),
       (⟨2, "10.0.0.1", "10.0.0.1", .ms 6, true⟩, 100, false)] := by
    norm_num [icmpTraceroute, icmpGo, bestResponse, List.range',
      List.range_succ, List.findSome?, min_def]
    decide
  refine ⟨⟨by rw [hrun]; rfl, rfl⟩, ?_⟩
  exact (c2_terminal_records
      (fun ttl _ => if ttl = 1 then some ("10.0.0.1", (5 : ℚ))
        else some ("10.0.0.1", 6))
      (fun _ => none) "8.8.8.8" false 1 2 "w" 1 []).2.1 _
    (by rw [hrun]; rfl) rfl

theorem bestResponse_some {net : Nat → Nat → Option (String × ℚ)}
    {mr ttl : Nat} {p : String × ℚ} (h : bestResponse net mr ttl = some p) :
    ∃ a, a < mr ∧ net ttl a = some p := by
  obtain ⟨a, ha, hfa⟩ := List.exists_of_findSome?_eq_some h
  exact ⟨a, List.mem_range.mp ha, hfa⟩

/-- In a socket-strategy run, any record carrying the `'*'` no-reply
sentinel (which a real `recvfrom` address, constrained by `hnet`, never
equals) comes from the timeout branch and is never loop-marked. -/
theorem icmpGo_star (net : Nat → Nat → Option (String × ℚ))
    (dns : String → Option String) (target : String) (rd : Bool)
    (mr mh : Nat) (hnet : ∀ t a p, net t a = some p → p.1 ≠ "*") :
    ∀ (ttls : List Nat) (visited : List String),
      ∀ y ∈ icmpGo net dns target rd mr mh ttls visited,
        y.1.ip = "*" → y.1.warning = false := by
  intro ttls
  induction ttls with
  | nil => intro visited y hy; simp [icmpGo] at hy
  | cons ttl rest ih =>
    intro visited y hy hip
    cases hbr : bestResponse net mr ttl with
    | none =>
      have hstep : icmpGo net dns target rd mr mh (ttl :: rest) visited =
          (⟨ttl, "*", "", .timeoutZh, false⟩,
            min 1 ((ttl : ℚ) / (mh : ℚ)), false) ::
            icmpGo net dns target rd mr mh rest visited := by
        simp [icmpGo, hbr]
      rw [hstep] at hy
      rcases List.mem_cons.mp hy with h | h
      · subst h; rfl
      · exact ih visited y h hip
    | some p =>
      obtain ⟨addr, delay⟩ := p
      have haddr : addr ≠ "*" := by
        obtain ⟨a, _, hfa⟩ := bestResponse_some hbr
        exact hnet ttl a _ hfa
      by_cases hv : addr ∈ visited
      · have hstep : icmpGo net dns target rd mr mh (ttl :: rest) visited =
            [(⟨ttl, addr, if rd then (dns addr).getD addr else addr,
              .ms delay, true⟩,
              ((⌊(ttl : ℚ) / (mh : ℚ) * 100⌋ : ℤ) : ℚ), false)] := by
          simp [icmpGo, hbr, hv]
        rw [hstep] at hy
        rcases List.mem_cons.mp hy with h | h
        · subst h; exact absurd hip haddr
        · simp at h
      · by_cases hd : addr = target
        · have hv2 : target ∉ visited := by rw [← hd]; exact hv
          have hstep : icmpGo net dns target rd mr mh (ttl :: rest) visited =
              [(⟨ttl, addr, if rd then (dns addr).getD addr else addr,
                .ms delay, false⟩, 1, true)] := by
            simp [icmpGo, hbr, hv, hd, hv2]
          rw [hstep] at hy
          rcases List.mem_cons.mp hy with h | h
          · subst h; rfl
          · simp at h
        · have hstep : icmpGo net dns target rd mr mh (ttl :: rest) visited =
              (⟨ttl, addr, if rd then (dns addr).getD addr else addr,
                .ms delay, false⟩,
                min 1 ((ttl : ℚ) / (mh : ℚ)), false) ::
                icmpGo net dns target rd mr mh rest (addr :: visited) := by
            simp [icmpGo, hbr, hv, hd]
          rw [hstep] at hy
          rcases List.mem_cons.mp hy with h | h
          · subst h; rfl
          · exact ih (addr :: visited) y h hip

/-- A run whose every probe times out yields one sentinel record per TTL. -/
theorem icmpGo_all_timeout (net : Nat → Nat → Option (String × ℚ))
    (dns : String → Option String) (target : String) (rd : Bool)
    (mr mh : Nat) (h : ∀ t a, net t a = none) :
    ∀ (ttls : List Nat) (visited : List String),
      icmpGo net dns target rd mr mh ttls visited =
        ttls.map fun (ttl : Nat) =>
          ((⟨ttl, "*", "", .timeoutZh, false⟩ : HopInfo),
            min 1 ((ttl : ℚ) / (mh : ℚ)), false) := by
  intro ttls
  induction ttls with
  | nil => intro visited; rfl
  | cons ttl rest ih =>
    intro visited
    have hbr : bestResponse net mr ttl = none := by
      simp only [bestResponse, List.findSome?_eq_none_iff, List.mem_range]
      exact fun a _ => h ttl a
    simp [icmpGo, hbr, ih visited]

/-- In the Windows strategy a `'*'`-sentinel record is never loop-marked:
the loop check explicitly excludes the sentinel. -/
theorem winGo_star (target : String) (mh : Nat) :
    ∀ (lines : List WinLine) (ch : Nat) (visited : List (Option String)),
      ∀ y ∈ winGo target mh lines ch visited,
        y.1.ip = some "*" → y.1.warning = false := by
  intro lines
  induction lines with
  | nil => intro ch visited y hy; simp [winGo] at hy
  | cons l rest ih =>
    intro ch visited y hy hip
    have hstep : winGo target mh (l :: rest) ch visited =
        (⟨l.hopTok, l.ip, l.hostname.getD "",
          if l.ip = some "*" then .timeoutEn
          else if l.rtts ≠ [] then .ms (l.rtts.sum / (l.rtts.length : ℚ))
          else .timeoutEn,
          decide (l.ip ≠ some "*" ∧ l.ip ∈ visited)⟩,
          if l.ip = some target then 1
            else min 1 (((ch + 1 : Nat) : ℚ) / (mh : ℚ)),
          decide (l.ip = some target)) ::
          (if l.ip = some target then []
            else winGo target mh rest (ch + 1)
              (if l.ip ≠ some "*" ∧ l.ip ∉ visited then l.ip :: visited
                else visited)) := by
      simp only [winGo]
    rw [hstep] at hy
    rcases List.mem_cons.mp hy with h | h
    · subst h
      simp only at hip
      simp [hip]
    · by_cases hd : l.ip = some target
      · rw [if_pos hd] at h; simp at h
      · rw [if_neg hd] at h
        exact ih (ch + 1) _ y h hip

/-- C10: a no-reply attempt never feeds loop detection. In the socket
strategies a `'*'`-sentinel record is never loop-marked (for a network
oracle whose responder addresses are real, never the sentinel); a run in
which every TTL from 1 to `max_hops` times out yields exactly `max_hops`
records, all sentinel and none loop-marked; and in the Windows strategy a
`'*'` line is likewise never loop-marked because `'*'` is neither checked
against nor added to the visited set. -/
theorem c10_no_loop_from_timeouts (net : Nat → Nat → Option (String × ℚ))
    (dns : String → Option String) (target : String) (rd : Bool)
    (mr mh : Nat) (wt : String) (wmh : Nat) (lines : List WinLine)
    (hnet : ∀ t a p, net t a = some p → p.1 ≠ "*") :
    (∀ y ∈ icmpTraceroute net dns target rd mr mh, y.1.ip = "*" →
      y.1.warning = false) ∧
    ((∀ t a, net t a = none) →
      (icmpTraceroute net dns target rd mr mh).length = mh ∧
      ∀ y ∈ icmpTraceroute net dns target rd mr mh,
        y.1.ip = "*" ∧ y.1.warning = false) ∧
    (∀ y ∈ windowsTracert wt wmh lines, y.1.ip = some "*" →
      y.1.warning = false) := by
  refine ⟨icmpGo_star net dns target rd mr mh hnet _ [], fun hto => ?_,
    winGo_star wt wmh lines 0 []⟩
  rw [icmpTraceroute, icmpGo_all_timeout net dns target rd mr mh hto]
  constructor
  · rw [List.length_map, List.length_range']
  · intro y hy
    obtain ⟨ttl, _, hf⟩ := List.mem_map.mp hy
    rw [← hf]
    exact ⟨rfl, rfl⟩

/-- Witness for C10 at the everywhere-silent network oracle with
`max_hops = 3`. -/
theorem c10_no_loop_from_timeouts_witness :
    ((∀ t a p, (fun (_ _ : Nat) => (none : Option (String × ℚ))) t a =
        some p → p.1 ≠ "*") ∧
      (∀ t a, (fun (_ _ : Nat) => (none : Option (String × ℚ))) t a =
        none)) ∧
    ((∀ y ∈ icmpTraceroute (fun _ _ => none) (fun _ => none) "8.8.8.8"
        true 3 3, y.1.ip = "*" → y.1.warning = false) ∧
      ((∀ t a, (fun (_ _ : Nat) => (none : Option (String × ℚ))) t a =
          none) →
        (icmpTraceroute (fun _ _ => none) (fun _ => none) "8.8.8.8"
          true 3 3).length = 3 ∧
        ∀ y ∈ icmpTraceroute (fun _ _ => none) (fun _ => none) "8.8.8.8"
          true 3 3, y.1.ip = "*" ∧ y.1.warning = false) ∧
      (∀ y ∈ windowsTracert "w" 5 [⟨1, [], some "*", none⟩],
        y.1.ip = some "*" → y.1.warning = false)) :=
  ⟨⟨fun _ _ _ h => by simp at h, fun _ _ => rfl⟩,
    c10_no_loop_from_timeouts (fun _ _ => none) (fun _ => none) "8.8.8.8"
      true 3 3 "w" 5 [⟨1, [], some "*", none⟩]
      (fun _ _ _ h => by simp at h)⟩

theorem lookup_map_stats (f : HopStat → HopStat) :
    ∀ (d : List (Nat × HopStat)) (k : Nat),
      List.lookup k (d.map fun e => (e.1, f e.2)) =
        (List.lookup k d).map f := by
  intro d
  induction d with
  | nil => intro k; rfl
  | cons e es ih =>
    intro k
    cases hbe : k == e.1 <;> simp [List.lookup, hbe, ih]

theorem mem_snapshot {d : List (Nat × HopStat)} {h : HopStat}
    (hh : h ∈ snapshot d) : ∃ k, List.lookup k d = some h := by
  simp only [snapshot, List.mem_filterMap] at hh
  obtain ⟨k, _, hk⟩ := hh
  exact ⟨k, hk⟩

theorem updateStats_delays (n : Nat) (s : HopStat) :
    (updateStats n s).delays = s.delays := by
  simp only [updateStats]
  split_ifs <;> rfl

theorem updateStats_loss (n : Nat) (s : HopStat) :
    (updateStats n s).loss_percent =
      ((n : ℚ) - (s.delays.length : ℚ)) / (n : ℚ) * 100 := by
  simp only [updateStats]
  split_ifs <;> rfl

theorem updateStats_avg (n : Nat) (s : HopStat) :
    (updateStats n s).avg_delay =
      if s.delays = [] then 0 else listMean s.delays := by
  simp only [updateStats]
  by_cases h : s.delays = []
  · simp only [h, if_pos]
    split_ifs <;> simp_all
  · simp only [h, if_neg]
    split_ifs <;> simp_all

theorem updateStats_std (n : Nat) (s : HopStat)
    (h : s.delays.length ≤ 1) : (updateStats n s).std_dev = 0 := by
  have h2 : ¬ (s.delays.length > 1) := by omega
  simp only [updateStats]
  split_ifs <;> simp_all

/-- Every hop snapshot a cycle yield carries is a statistics pass, with the
summary's own cycle count as the denominator, over some accumulated entry. -/
theorem mtrGo_yield_stats (count : Nat) :
    ∀ (cs : List (Option (List HopObs))) (cycle : Nat)
      (d : List (Nat × HopStat)),
      ∀ y ∈ mtrGo count cs cycle d, ∀ h ∈ y.2.2,
        ∃ s0, h = updateStats y.1.cycles_complete s0 := by
  intro cs
  induction cs with
  | nil =>
    intro cycle d y hy h hh
    simp only [mtrGo, List.mem_singleton] at hy
    subst hy
    obtain ⟨k, hk⟩ := mem_snapshot hh
    rw [show updateAllStats count d =
      d.map (fun e => (e.1, updateStats count e.2)) from rfl,
      lookup_map_stats] at hk
    cases hlk : List.lookup k d with
    | none => rw [hlk] at hk; simp at hk
    | some s0 =>
      rw [hlk] at hk
      simp at hk
      exact ⟨s0, hk.symm⟩
  | cons c rest ih =>
    intro cycle d y hy h hh
    cases c with
    | none => exact ih (cycle + 1) d y (by simpa [mtrGo] using hy) h hh
    | some obs =>
      simp only [mtrGo, List.mem_cons] at hy
      rcases hy with he | htail
      · subst he
        obtain ⟨k, hk⟩ := mem_snapshot hh
        rw [show updateAllStats (cycle + 1) (processCycle d obs) =
          (processCycle d obs).map
            (fun e => (e.1, updateStats (cycle + 1) e.2)) from rfl,
          lookup_map_stats] at hk
        cases hlk : List.lookup k (processCycle d obs) with
        | none => rw [hlk] at hk; simp at hk
        | some s0 =>
          rw [hlk] at hk
          simp at hk
          exact ⟨s0, hk.symm⟩
      · exact ih (cycle + 1) _ y htail h hh

theorem mtrGo_ne_nil (count : Nat) :
    ∀ cs cycle d, mtrGo count cs cycle d ≠ [] := by
  intro cs
  induction cs with
  | nil => intro cycle d; simp [mtrGo]
  | cons c rest ih =>
    intro cycle d
    cases c with
    | none => simp only [mtrGo]; exact ih _ _
    | some obs => simp [mtrGo]

theorem mtrGo_last (count : Nat) :
    ∀ cs cycle d y, (mtrGo count cs cycle d).getLast? = some y →
      y.1.cycles_complete = count ∧ y.2.1 = 1 := by
  intro cs
  induction cs with
  | nil =>
    intro cycle d y hy
    simp only [mtrGo, List.getLast?_singleton, Option.some.injEq] at hy
    subst hy
    exact ⟨rfl, rfl⟩
  | cons c rest ih =>
    intro cycle d y hy
    cases c with
    | none => exact ih _ _ y (by simpa [mtrGo] using hy)
    | some obs =>
      simp only [mtrGo] at hy
      rcases getLast?_cons_cases hy with ⟨h1, _⟩ | h1
      · exact absurd h1 (mtrGo_ne_nil count rest (cycle + 1) _)
      · exact ih _ _ y h1

/-- C3: every yielded MTR summary — with `n` the summary's own completed
cycle count, which runs through the completed cycles and is finally
`cycleCount` in the terminal yield — reports, for every hop,
`lossPercent = 100·(n − samples)/n`, an `avgDelay` equal to the arithmetic
mean of the samples (0 when there are none), and `stdDev = 0` whenever
there are at most one sample; the terminal yield carries progress 1 and the
full cycle count. -/
theorem c3_mtr_statistics (cycles : List (Option (List HopObs))) :
    (∀ y ∈ mtr cycles, ∀ h ∈ y.2.2,
      h.loss_percent = ((y.1.cycles_complete : ℚ) - (h.delays.length : ℚ)) /
        (y.1.cycles_complete : ℚ) * 100 ∧
      h.avg_delay = (if h.delays = [] then 0 else listMean h.delays) ∧
      (h.delays.length ≤ 1 → h.std_dev = 0)) ∧
    (∀ y, (mtr cycles).getLast? = some y →
      y.1.cycles_complete = cycles.length ∧ y.2.1 = 1) := by
  constructor
  · intro y hy h hh
    obtain ⟨s0, hs0⟩ := mtrGo_yield_stats cycles.length cycles 0 [] y hy h hh
    subst hs0
    refine ⟨?_, ?_, ?_⟩
    · rw [updateStats_loss, updateStats_delays]
    · rw [updateStats_avg, updateStats_delays]
    · intro hlen
      rw [updateStats_delays] at hlen
      exact updateStats_std _ _ hlen
  · intro y hy
    exact mtrGo_last cycles.length cycles 0 [] y hy

/-- Witness for C3 at a single completed cycle observing one hop with one
10 ms sample: both yielded summaries satisfy the statistics equations. -/
theorem c3_mtr_statistics_witness :
    (((⟨1, 1, 1⟩ : MtrSummary), (1 : ℚ),
        [(⟨1, "a", "h", [10], 0, some 10, 10, 10, 0⟩ : HopStat)]) ∈
      mtr [some [⟨1, "a", "h", .ms 10, false⟩]] ∧
      (⟨1, "a", "h", [10], 0, some 10, 10, 10, 0⟩ : HopStat) ∈
        [(⟨1, "a", "h", [10], 0, some 10, 10, 10, 0⟩ : HopStat)]) ∧
    ((⟨1, "a", "h", [10], 0, some 10, 10, 10, 0⟩ : HopStat).loss_percent =
      ((((⟨1, 1, 1⟩ : MtrSummary), (1 : ℚ),
        [(⟨1, "a", "h", [10], 0, some 10, 10, 10, 0⟩ : HopStat)]).1.cycles_complete : ℚ) -
        ((⟨1, "a", "h", [10], 0, some 10, 10, 10, 0⟩ : HopStat).delays.length : ℚ)) /
        ((((⟨1, 1, 1⟩ : MtrSummary), (1 : ℚ),
        [(⟨1, "a", "h", [10], 0, some 10, 10, 10, 0⟩ : HopStat)]).1.cycles_complete : ℚ)) * 100 ∧
      (⟨1, "a", "h", [10], 0, some 10, 10, 10, 0⟩ : HopStat).avg_delay =
        (if (⟨1, "a", "h", [10], 0, some 10, 10, 10, 0⟩ : HopStat).delays = []
          then 0
          else listMean (⟨1, "a", "h", [10], 0, some 10, 10, 10, 0⟩ : HopStat).delays) ∧
      ((⟨1, "a", "h", [10], 0, some 10, 10, 10, 0⟩ : HopStat).delays.length ≤ 1 →
        (⟨1, "a", "h", [10], 0, some 10, 10, 10, 0⟩ : HopStat).std_dev = 0)) := by
  have hmtr : mtr [some [⟨1, "a", "h", .ms 10, false⟩]] =
      [((⟨1, 1, 1⟩ : MtrSummary), (1 : ℚ),
        [(⟨1, "a", "h", [10], 0, some 10, 10, 10, 0⟩ : HopStat)]),
       ((⟨1, 1, 1⟩ : MtrSummary), (1 : ℚ),
        [(⟨1, "a", "h", [10], 0, some 10, 10, 10, 0⟩ : HopStat)])] := by
    have hne : (some (10 : ℚ) = none) = False := by simp
    norm_num [mtr, mtrGo, processCycle, takeThroughDest, processObs,
      List.lookup, initStat, updateEntry, parsedSample, updateAllStats,
      updateStats, snapshot, listMean, List.mergeSort, List.filterMap,
      hne]
  have hy : ((⟨1, 1, 1⟩ : MtrSummary), (1 : ℚ),
      [(⟨1, "a", "h", [10], 0, some 10, 10, 10, 0⟩ : HopStat)]) ∈
      mtr [some [⟨1, "a", "h", .ms 10, false⟩]] := by
    rw [hmtr]; exact List.mem_cons_self _ _
  have hh : (⟨1, "a", "h", [10], 0, some 10, 10, 10, 0⟩ : HopStat) ∈
      [(⟨1, "a", "h", [10], 0, some 10, 10, 10, 0⟩ : HopStat)] :=
    List.mem_singleton.mpr rfl
  exact ⟨⟨hy, hh⟩,
    (c3_mtr_statistics [some [⟨1, "a", "h", .ms 10, false⟩]]).1 _ hy _ hh⟩

theorem find?_append_or {α : Type _} (p : α → Bool) (l₁ l₂ : List α) :
    List.find? p (l₁ ++ l₂) = (List.find? p l₁).or (List.find? p l₂) := by
  induction l₁ with
  | nil => simp
  | cons a as ih => cases hp : p a <;> simp [List.find?, hp, ih]

theorem lookup_append_or (d₁ d₂ : List (Nat × HopStat)) (k : Nat) :
    List.lookup k (d₁ ++ d₂) = (List.lookup k d₁).or (List.lookup k d₂) := by
  induction d₁ with
  | nil => simp [List.lookup]
  | cons e es ih =>
    cases hbe : k == e.1 <;> simp [List.lookup, hbe, ih]

theorem lookup_map_modify_self (key : Nat) (f : HopStat → HopStat) :
    ∀ (d : List (Nat × HopStat)),
      List.lookup key (d.map fun e => if e.1 = key then (e.1, f e.2) else e) =
        (List.lookup key d).map f := by
  intro d
  induction d with
  | nil => rfl
  | cons e es ih =>
    by_cases he : e.1 = key
    · rw [List.map_cons, if_pos he]
      simp [List.lookup, he]
    · rw [List.map_cons, if_neg he]
      have hbe : (key == e.1) = false := beq_false_of_ne (Ne.symm he)
      simp [List.lookup, hbe, ih]

theorem lookup_map_modify_ne (key : Nat) (f : HopStat → HopStat) (k : Nat)
    (hk : ¬ k = key) :
    ∀ (d : List (Nat × HopStat)),
      List.lookup k (d.map fun e => if e.1 = key then (e.1, f e.2) else e) =
        List.lookup k d := by
  intro d
  induction d with
  | nil => rfl
  | cons e es ih =>
    by_cases he : e.1 = key
    · rw [List.map_cons, if_pos he]
      have hbe : (k == e.1) = false :=
        beq_false_of_ne fun h => hk (h.trans he)
      simp [List.lookup, hbe, ih]
    · rw [List.map_cons, if_neg he]
      cases hbe : k == e.1 <;> simp [List.lookup, hbe, ih]

theorem lookup_processObs_self (d : List (Nat × HopStat)) (o : HopObs) :
    List.lookup o.hop (processObs d o) =
      some (updateEntry o ((List.lookup o.hop d).getD (initStat o))) := by
  unfold processObs
  cases hl : List.lookup o.hop d with
  | none =>
    rw [lookup_append_or, hl]
    simp [List.lookup]
  | some v =>
    rw [lookup_map_modify_self, hl]
    rfl

theorem lookup_processObs_ne (d : List (Nat × HopStat)) (o : HopObs)
    (k : Nat) (hk : ¬ k = o.hop) :
    List.lookup k (processObs d o) = List.lookup k d := by
  unfold processObs
  cases hl : List.lookup o.hop d with
  | none =>
    rw [lookup_append_or]
    have hbe : (k == o.hop) = false := beq_false_of_ne hk
    cases hkd : List.lookup k d <;> simp [List.lookup, hbe, hkd]
  | some v => exact lookup_map_modify_ne o.hop (updateEntry o) k hk d

theorem firstObsFor_snoc (k : Nat) (seen : List HopObs) (o : HopObs) :
    firstObsFor k (seen ++ [o]) =
      (firstObsFor k seen).or (if o.hop = k then some o else none) := by
  unfold firstObsFor
  rw [find?_append_or]
  congr 1
  cases hp : (o.hop == k) <;> simp [List.find?, hp] <;>
    simp [beq_iff_eq] at hp <;> simp [hp]

theorem firstHostnameFor_of_none (k : Nat) (seen : List HopObs)
    (h : firstObsFor k seen = none) : firstHostnameFor k seen = "" := by
  unfold firstObsFor at h
  rw [List.find?_eq_none] at h
  unfold firstHostnameFor hostnameCandidates
  rw [List.filter_eq_nil_iff.mpr h]
  rfl

theorem firstHostnameFor_empty_iff (k : Nat) (seen : List HopObs) :
    firstHostnameFor k seen = "" ↔ hostnameCandidates k seen = [] := by
  unfold firstHostnameFor
  cases hF : hostnameCandidates k seen with
  | nil => simp
  | cons x xs =>
    have hx : x ∈ hostnameCandidates k seen := by
      rw [hF]; exact List.mem_cons_self _ _
    have hxne : x ≠ "" := by
      unfold hostnameCandidates at hx
      have := List.of_mem_filter hx
      simpa using this
    simp [hxne]

theorem hostnameCandidates_append (k : Nat) (l₁ l₂ : List HopObs) :
    hostnameCandidates k (l₁ ++ l₂) =
      hostnameCandidates k l₁ ++ hostnameCandidates k l₂ := by
  unfold hostnameCandidates
  rw [List.filter_append, List.map_append, List.filter_append]

theorem firstHostnameFor_snoc (k : Nat) (seen : List HopObs) (o : HopObs) :
    firstHostnameFor k (seen ++ [o]) =
      if firstHostnameFor k seen = "" then
        (if o.hop = k ∧ o.hostname ≠ "" then o.hostname else "")
      else firstHostnameFor k seen := by
  by_cases h0 : firstHostnameFor k seen = ""
  · rw [if_pos h0]
    have hF : hostnameCandidates k seen = [] :=
      (firstHostnameFor_empty_iff k seen).mp h0
    unfold firstHostnameFor
    rw [hostnameCandidates_append, hF, List.nil_append]
    by_cases ho : o.hop = k
    · by_cases hh : o.hostname = ""
      · simp [hostnameCandidates, List.filter, ho, hh]
      · simp [hostnameCandidates, List.filter, ho, hh]
    · have hbe : (o.hop == k) = false := beq_false_of_ne ho
      simp [hostnameCandidates, List.filter, hbe, ho]
  · rw [if_neg h0]
    have hF : hostnameCandidates k seen ≠ [] := by
      intro hnil
      exact h0 ((firstHostnameFor_empty_iff k seen).mpr hnil)
    obtain ⟨x, xs, hxx⟩ := List.exists_cons_of_ne_nil hF
    unfold firstHostnameFor
    rw [hostnameCandidates_append, hxx]
    rfl

theorem updateEntry_hop (o : HopObs) (s : HopStat) :
    (updateEntry o s).hop = s.hop := by
  unfold updateEntry
  split <;> split <;> rfl

theorem updateEntry_ip (o : HopObs) (s : HopStat) :
    (updateEntry o s).ip = s.ip := by
  unfold updateEntry
  split <;> split <;> rfl

theorem updateEntry_hostname (o : HopObs) (s : HopStat) :
    (updateEntry o s).hostname =
      if o.hostname ≠ "" ∧ s.hostname = "" then o.hostname
      else s.hostname := by
  unfold updateEntry
  split <;> split <;> rfl

theorem updateStats_hop (n : Nat) (s : HopStat) :
    (updateStats n s).hop = s.hop := by
  simp only [updateStats]
  split_ifs <;> rfl

theorem updateStats_ip (n : Nat) (s : HopStat) :
    (updateStats n s).ip = s.ip := by
  simp only [updateStats]
  split_ifs <;> rfl

theorem updateStats_hostname (n : Nat) (s : HopStat) :
    (updateStats n s).hostname = s.hostname := by
  simp only [updateStats]
  split_ifs <;> rfl

/-- Processing one observation preserves the dictionary invariant, with the
observation appended to the processed stream. -/
theorem MtrInv_processObs {seen : List HopObs} {d : List (Nat × HopStat)}
    (h : MtrInv seen d) (o : HopObs) :
    MtrInv (seen ++ [o]) (processObs d o) := by
  obtain ⟨hnone, hsome⟩ := h
  constructor
  · intro k hk
    by_cases hko : k = o.hop
    · subst hko
      rw [lookup_processObs_self] at hk
      simp at hk
    · rw [lookup_processObs_ne d o k hko] at hk
      rw [firstObsFor_snoc, hnone k hk]
      simp only [Option.none_or]
      rw [if_neg fun h2 => hko h2.symm]
  · intro k v hk
    by_cases hko : k = o.hop
    · subst hko
      rw [lookup_processObs_self] at hk
      have hv : updateEntry o ((List.lookup o.hop d).getD (initStat o)) =
          v := by injection hk
      cases hl : List.lookup o.hop d with
      | none =>
        rw [hl] at hv
        subst hv
        have hfo : firstObsFor o.hop seen = none := hnone o.hop hl
        have hfh : firstHostnameFor o.hop seen = "" :=
          firstHostnameFor_of_none _ _ hfo
        refine ⟨?_, ⟨o, ?_, ?_⟩, ?_⟩
        · rw [updateEntry_hop]; rfl
        · rw [firstObsFor_snoc, hfo]; simp
        · rw [updateEntry_ip]; rfl
        · rw [updateEntry_hostname, firstHostnameFor_snoc, if_pos hfh]
          by_cases hh : o.hostname = ""
          · simp [initStat, hh, hfh]
          · simp [initStat, hh]
      | some v0 =>
        rw [hl] at hv
        subst hv
        obtain ⟨hhop, ⟨ox, hox, hipx⟩, hhn⟩ := hsome o.hop v0 hl
        refine ⟨?_, ⟨ox, ?_, ?_⟩, ?_⟩
        · rw [updateEntry_hop]; exact hhop
        · rw [firstObsFor_snoc, hox]; rfl
        · rw [updateEntry_ip]; exact hipx
        · rw [updateEntry_hostname, firstHostnameFor_snoc]
          by_cases h0 : firstHostnameFor o.hop seen = ""
          · rw [if_pos h0]
            have hv0 : v0.hostname = "" := by rw [hhn]; exact h0
            by_cases hh : o.hostname = ""
            · simp [hh, hv0]
            · simp [hh, hv0]
          · rw [if_neg h0]
            have hv0 : ¬ v0.hostname = "" := by rw [hhn]; exact h0
            rw [if_neg fun hcon => hv0 hcon.2]
            exact hhn
    · rw [lookup_processObs_ne d o k hko] at hk
      obtain ⟨hhop, ⟨ox, hox, hipx⟩, hhn⟩ := hsome k v hk
      refine ⟨hhop, ⟨ox, ?_, hipx⟩, ?_⟩
      · rw [firstObsFor_snoc, hox]; rfl
      · rw [firstHostnameFor_snoc]
        by_cases h0 : firstHostnameFor k seen = ""
        · rw [if_pos h0, if_neg fun hcon => hko hcon.1.symm]
          rw [hhn, h0]
        · rw [if_neg h0]; exact hhn

theorem MtrInv_foldl :
    ∀ (l : List HopObs) (seen : List HopObs) (d : List (Nat × HopStat)),
      MtrInv seen d → MtrInv (seen ++ l) (l.foldl processObs d) := by
  intro l
  induction l with
  | nil => intro seen d h; simpa using h
  | cons o rest ih =>
    intro seen d h
    rw [List.foldl_cons,
      show seen ++ o :: rest = (seen ++ [o]) ++ rest by simp]
    exact ih (seen ++ [o]) (processObs d o) (MtrInv_processObs h o)

theorem MtrInv_processCycle {seen : List HopObs} {d : List (Nat × HopStat)}
    (h : MtrInv seen d) (obs : List HopObs) :
    MtrInv (seen ++ takeThroughDest obs) (processCycle d obs) :=
  MtrInv_foldl (takeThroughDest obs) seen d h

theorem MtrInv_updateAllStats {seen : List HopObs}
    {d : List (Nat × HopStat)} (h : MtrInv seen d) (n : Nat) :
    MtrInv seen (updateAllStats n d) := by
  obtain ⟨hnone, hsome⟩ := h
  constructor
  · intro k hk
    rw [show updateAllStats n d =
      d.map (fun e => (e.1, updateStats n e.2)) from rfl,
      lookup_map_stats] at hk
    cases hlk : List.lookup k d with
    | none => exact hnone k hlk
    | some s0 => rw [hlk] at hk; simp at hk
  · intro k v hk
    rw [show updateAllStats n d =
      d.map (fun e => (e.1, updateStats n e.2)) from rfl,
      lookup_map_stats] at hk
    cases hlk : List.lookup k d with
    | none => rw [hlk] at hk; simp at hk
    | some s0 =>
      rw [hlk] at hk
      simp at hk
      obtain ⟨hhop, ⟨ox, hox, hipx⟩, hhn⟩ := hsome k s0 hlk
      rw [← hk]
      exact ⟨by rw [updateStats_hop]; exact hhop,
        ⟨ox, hox, by rw [updateStats_ip]; exact hipx⟩,
        by rw [updateStats_hostname]; exact hhn⟩

/-- The terminal summary reports, for every hop, the address of the first
observation of that hop in the whole processed stream and the first
non-empty hostname observed for it. -/
theorem mtrGo_last_inv (count : Nat) :
    ∀ (cs : List (Option (List HopObs))) (cycle : Nat)
      (d : List (Nat × HopStat)) (seen : List HopObs),
      MtrInv seen d →
      ∀ y, (mtrGo count cs cycle d).getLast? = some y → ∀ h ∈ y.2.2,
        (∃ o, firstObsFor h.hop (seen ++ processedObs cs) = some o ∧
          h.ip = o.ip) ∧
        h.hostname = firstHostnameFor h.hop (seen ++ processedObs cs) := by
  intro cs
  induction cs with
  | nil =>
    intro cycle d seen hinv y hy h hh
    simp only [mtrGo, List.getLast?_singleton, Option.some.injEq] at hy
    subst hy
    obtain ⟨k, hk⟩ := mem_snapshot hh
    have hinv2 := MtrInv_updateAllStats hinv count
    obtain ⟨hhop, ⟨ox, hox, hipx⟩, hhn⟩ := hinv2.2 k h hk
    rw [show processedObs [] = [] from rfl, List.append_nil, hhop]
    exact ⟨⟨ox, hox, hipx⟩, hhn⟩
  | cons c rest ih =>
    intro cycle d seen hinv y hy h hh
    cases c with
    | none =>
      have hpo : processedObs (none :: rest) = processedObs rest := by
        simp [processedObs]
      rw [hpo]
      exact ih (cycle + 1) d seen hinv y (by simpa [mtrGo] using hy) h hh
    | some obs =>
      simp only [mtrGo] at hy
      rcases getLast?_cons_cases hy with ⟨h1, _⟩ | h1
      · exact absurd h1 (mtrGo_ne_nil count rest (cycle + 1) _)
      · have hinv2 : MtrInv (seen ++ takeThroughDest obs)
            (updateAllStats (cycle + 1) (processCycle d obs)) :=
          MtrInv_updateAllStats (MtrInv_processCycle hinv obs) (cycle + 1)
        have hres := ih (cycle + 1) _ _ hinv2 y h1 h hh
        have hpo : processedObs (some obs :: rest) =
            takeThroughDest obs ++ processedObs rest := by
          simp [processedObs]
        rw [hpo, ← List.append_assoc]
        exact hres

/-- C9 (counterexample): the MTR aggregate keeps the *first* observed
address and hostname, not the last. With hop 1 answering from
`1.1.1.1`/`hostA` in cycle 1 and from `2.2.2.2`/`hostB` in cycle 2, the
final summary still reports `1.1.1.1`/`hostA`. -/
theorem c9_first_address_wins_counterexample :
    ((mtr [some [⟨1, "1.1.1.1", "hostA", .ms 10, false⟩],
           some [⟨1, "2.2.2.2", "hostB", .ms 20, false⟩]]).getLast?.map
      fun y => y.2.2.map fun h => (h.ip, h.hostname)) =
      some [("1.1.1.1", "hostA")] ∧
    ("1.1.1.1", "hostA") ≠ ("2.2.2.2", "hostB") := by
  constructor
  · have hne : (some (10 : ℚ) = none) = False := by simp
    have hAB : (¬ ("hostB" : String) = "" ∧ ("hostA" : String) = "") =
        False := by
      refine eq_false ?_
      intro hcon
      exact (by decide : ¬ ("hostA" : String) = "") hcon.2
    have hl1 : (([10] : List ℚ) = []) = False := by simp
    have hl2 : (([10, 20] : List ℚ) = []) = False := by simp
    norm_num [mtr, mtrGo, processCycle, takeThroughDest, processObs,
      List.lookup, initStat, updateEntry, parsedSample, updateAllStats,
      updateStats, snapshot, listMean, List.mergeSort, List.filterMap,
      min_def, max_def, hne, hAB, hl1, hl2]
  · decide

/-- C9 (amended): the per-hop aggregate is keyed by hop number with a
stable identity across cycles, but when the responding address or hostname
changes between cycles the *first*-known values win, not the last: the
final summary reports, for every hop, the address of the first observation
of that hop in the whole processed observation stream, and the first
non-empty hostname observed for it (empty if none ever was). -/
theorem c9_hop_identity_amended (cycles : List (Option (List HopObs))) :
    ∀ y, (mtr cycles).getLast? = some y → ∀ h ∈ y.2.2,
      (∃ o, firstObsFor h.hop (processedObs cycles) = some o ∧
        h.ip = o.ip) ∧
      h.hostname = firstHostnameFor h.hop (processedObs cycles) := by
  intro y hy h hh
  have hinv : MtrInv [] [] := by
    constructor
    · intro k _; rfl
    · intro k v hk; simp [List.lookup] at hk
  have hres := mtrGo_last_inv cycles.length cycles 0 [] [] hinv y hy h hh
  simpa using hres

/-- Witness for C9 (amended) at the two-cycle address-change run: the final
summary's hop-1 entry indeed carries the first observation's address. -/
theorem c9_hop_identity_amended_witness :
    ((mtr [some [⟨1, "1.1.1.1", "hostA", .ms 10, false⟩],
        some [⟨1, "2.2.2.2", "hostB", .ms 20, false⟩]]).getLast? =
      some (⟨2, 2, 1⟩, 1,
        [⟨1, "1.1.1.1", "hostA", [10, 20], 0, some 10, 20, 15,
          sampleStdDev [10, 20]⟩]) ∧
      (⟨1, "1.1.1.1", "hostA", [10, 20], 0, some 10, 20, 15,
        sampleStdDev [10, 20]⟩ : HopStat) ∈
        [(⟨1, "1.1.1.1", "hostA", [10, 20], 0, some 10, 20, 15,
          sampleStdDev [10, 20]⟩ : HopStat)]) ∧
    ((∃ o, firstObsFor
        (⟨1, "1.1.1.1", "hostA", [10, 20], 0, some 10, 20, 15,
          sampleStdDev [10, 20]⟩ : HopStat).hop
        (processedObs [some [⟨1, "1.1.1.1", "hostA", .ms 10, false⟩],
          some [⟨1, "2.2.2.2", "hostB", .ms 20, false⟩]]) = some o ∧
        (⟨1, "1.1.1.1", "hostA", [10, 20], 0, some 10, 20, 15,
          sampleStdDev [10, 20]⟩ : HopStat).ip = o.ip) ∧
      (⟨1, "1.1.1.1", "hostA", [10, 20], 0, some 10, 20, 15,
        sampleStdDev [10, 20]⟩ : HopStat).hostname =
        firstHostnameFor
          (⟨1, "1.1.1.1", "hostA", [10, 20], 0, some 10, 20, 15,
            sampleStdDev [10, 20]⟩ : HopStat).hop
          (processedObs [some [⟨1, "1.1.1.1", "hostA", .ms 10, false⟩],
            some [⟨1, "2.2.2.2", "hostB", .ms 20, false⟩]])) := by
  have hne : (some (10 : ℚ) = none) = False := by simp
  have hAB : (¬ ("hostB" : String) = "" ∧ ("hostA" : String) = "") =
      False := by
    refine eq_false ?_
    intro hcon
    exact (by decide : ¬ ("hostA" : String) = "") hcon.2
  have hl1 : (([10] : List ℚ) = []) = False := by simp
  have hl2 : (([10, 20] : List ℚ) = []) = False := by simp
  have hmtr : mtr [some [⟨1, "1.1.1.1", "hostA", .ms 10, false⟩],
      some [⟨1, "2.2.2.2", "hostB", .ms 20, false⟩]] =
      [(⟨1, 2, 1⟩, 1/2,
        [⟨1, "1.1.1.1", "hostA", [10], 0, some 10, 10, 10, 0⟩]),
       (⟨2, 2, 1⟩, 1,
        [⟨1, "1.1.1.1", "hostA", [10, 20], 0, some 10, 20, 15,
          sampleStdDev [10, 20]⟩]),
       (⟨2, 2, 1⟩, 1,
        [⟨1, "1.1.1.1", "hostA", [10, 20], 0, some 10, 20, 15,
          sampleStdDev [10, 20]⟩])] := by
    norm_num [mtr, mtrGo, processCycle, takeThroughDest, processObs,
      List.lookup, initStat, updateEntry, parsedSample, updateAllStats,
      updateStats, snapshot, listMean, List.mergeSort, List.filterMap,
      min_def, max_def, hne, hAB, hl1, hl2]
  have hy : (mtr [some [⟨1, "1.1.1.1", "hostA", .ms 10, false⟩],
      some [⟨1, "2.2.2.2", "hostB", .ms 20, false⟩]]).getLast? =
      some (⟨2, 2, 1⟩, 1,
        [⟨1, "1.1.1.1", "hostA", [10, 20], 0, some 10, 20, 15,
          sampleStdDev [10, 20]⟩]) := by
    rw [hmtr]; rfl
  have hh : (⟨1, "1.1.1.1", "hostA", [10, 20], 0, some 10, 20, 15,
      sampleStdDev [10, 20]⟩ : HopStat) ∈
      [(⟨1, "1.1.1.1", "hostA", [10, 20], 0, some 10, 20, 15,
        sampleStdDev [10, 20]⟩ : HopStat)] := List.mem_singleton.mpr rfl
  exact ⟨⟨hy, hh⟩,
    c9_hop_identity_amended
      [some [⟨1, "1.1.1.1", "hostA", .ms 10, false⟩],
        some [⟨1, "2.2.2.2", "hostB", .ms 20, false⟩]] _ hy _ hh⟩

/-- C1 (code bug): the claim — progress lies in [0,1] for every yielded
record, `min(1, ttl/maxHops)` off the destination, clamped to 1 on it,
including the final record of a loop-terminated run — matches the entry
point's own contract ("progress is a float between 0 and 1", source lines
856–860) and every yield of the socket strategies except one: the
routing-loop record is yielded with `int((ttl / max_hops) * 100)` (source
line 588), a percentage. Concretely, with the same responder at TTL 1 and 2
and `max_hops = 2`, the loop record's progress is 100, not a value in
[0,1]. -/
theorem c1_loop_progress_out_of_range :
    icmpTraceroute
        (fun ttl _ => if ttl = 1 then some ("10.0.0.1", (5 : ℚ))
          else some ("10.0.0.1", 6))
        (fun _ => none) "8.8.8.8" false 1 2 =
      [(⟨1, "10.0.0.1", "10.0.0.1", .ms 5, false⟩, 1/2, false),
       (⟨2, "10.0.0.1", "10.0.0.1", .ms 6, true⟩, 100, false)] ∧
    ¬ ((100 : ℚ) ≤ 1) := by
  refine ⟨?_, by norm_num⟩
  norm_num [icmpTraceroute, icmpGo, bestResponse, List.range',
    List.range_succ, List.findSome?, min_def]
  all_goals decide

/-- C5 (counterexample): `calculate_checksum` folds the carry into the low
16 bits only once, so on `FF FF FF FF 00 01` — word sum `0x1FFFF`, single
fold `0x10000`, still 17 bits — it returns `0xFFFF`, while the 16-bit
one's-complement checksum described by the spec (carry folded *to 16 bits*,
then complemented) is `0xFFFE`. -/
theorem c5_single_fold_counterexample :
    calculate_checksum [255, 255, 255, 255, 0, 1] = 65535 ∧
    onesComplementChecksum [255, 255, 255, 255, 0, 1] = 65534 ∧
    calculate_checksum [255, 255, 255, 255, 0, 1] ≠
      onesComplementChecksum [255, 255, 255, 255, 0, 1] := by
  refine ⟨by decide, by decide, by decide⟩

/-- C6 (counterexample): the builders do not "return without throwing" for
every identifier/sequence and every requested size at or above the header
size. An identifier outside 16 bits makes the `'!BBHHH'` header pack of
`create_icmp_packet` raise `struct.error`, and a requested size of 65536 —
well above the 20-byte UDP header+minimum — makes `create_udp_packet`'s
16-bit length field `len(data) + 8 = 65536` raise. -/
theorem c6_builder_raises_counterexample :
    create_icmp_packet 65536 0 64 0 (fun _ => 0) = none ∧
    create_udp_packet 1 33434 65536 0 (fun _ => 0) = none := by
  constructor
  · decide
  · have h4 : (natToBytesBE 4 1).length = 4 := natToBytesBE_length 4 1
    have h8 : (natToBytesBE 8 0).length = 8 := natToBytesBE_length 8 0
    simp only [create_udp_packet, packI, pack_HHHH, packH, h4, h8,
      List.length_append, List.length_map, List.length_range]
    norm_num [h4, h8]

/-- C7 (code bug): the claim (and the spec) says the ICMPv6 echo packet is
laid out like the ICMPv4 one — an 8-byte header `type, code, checksum,
identifier, sequence` — with type 128. The source instead packs
`struct.pack('!BBHH', 128, 0, 0, sequence)` (line 103): a 6-byte header
with no identifier field at all, as witnessed at `packet_id = 7`,
`sequence = 1`, `packet_size = 64`: the packet starts `80 00 00 00 00 01`,
not the claimed `80 00 00 00 00 07 00 01`, and the identifier argument does
not influence the packet. The checksum field being left zero is the one
part of the claim the code does satisfy. -/
theorem c7_icmpv6_header_missing_identifier :
    create_icmpv6_packet 7 1 64 0 (fun _ => 0) =
      some ([128, 0, 0, 0, 0, 1] ++ List.replicate 58 0) ∧
    ([128, 0, 0, 0, 0, 1] ++ List.replicate 58 0).take 8 ≠
      [128, 0, 0, 0, 0, 7, 0, 1] ∧
    create_icmpv6_packet 7 1 64 0 (fun _ => 0) =
      create_icmpv6_packet 99 1 64 0 (fun _ => 0) := by
  refine ⟨by decide, by decide, by decide⟩

/-- C8 (counterexample): when every retry at a TTL times out the socket
strategies do yield a sentinel record and continue — but its delay string
is the literal `'超时'` (source line 613), not the claimed `'Timeout'`.
Here both TTLs of a 2-hop all-timeout run carry `'超时'`. -/
theorem c8_sentinel_counterexample :
    icmpTraceroute (fun _ _ => none) (fun _ => none) "8.8.8.8" true 3 2 =
      [(⟨1, "*", "", .timeoutZh, false⟩, 1/2, false),
       (⟨2, "*", "", .timeoutZh, false⟩, 1, false)] ∧
    delayString .timeoutZh = "超时" ∧
    delayString .timeoutZh ≠ "Timeout" := by
  refine ⟨?_, rfl, by decide⟩
  norm_num [icmpTraceroute, icmpGo, bestResponse, List.range',
    List.range_succ, List.findSome?, min_def]

theorem bestResponse_eq_none (net : Nat → Nat → Option (String × ℚ))
    (mr ttl : Nat) (h : ∀ a, a < mr → net ttl a = none) :
    bestResponse net mr ttl = none := by
  simp only [bestResponse, List.findSome?_eq_none_iff, List.mem_range]
  exact fun a ha => h a ha

theorem calculate_checksum_le (data : List Nat) :
    calculate_checksum data ≤ 65535 := Nat.sub_le _ _

theorem icmpHeaderBytes_length (c id seq : Nat) :
    (icmpHeaderBytes c id seq).length = 8 := by
  simp [icmpHeaderBytes, natToBytesBE_length]

theorem icmpDataBytes_length (ps ts : Nat) (rand : Nat → Nat) :
    (icmpDataBytes ps ts rand).length = 8 + (ps - 16) := by
  simp [icmpDataBytes, natToBytesBE_length]
  omega

theorem udpDataBytes_length (id ps ts : Nat) (rand : Nat → Nat) :
    (udpDataBytes id ps ts rand).length = 12 + (ps - 20) := by
  simp [udpDataBytes, natToBytesBE_length]
  omega

theorem pack_BBHHH_eq (c id seq : Nat) (hc : c ≤ 65535) (hid : id ≤ 65535)
    (hseq : seq ≤ 65535) :
    pack_BBHHH 8 0 c id seq = some (icmpHeaderBytes c id seq) := by
  simp [pack_BBHHH, packB, packH, icmpHeaderBytes, hc, hid, hseq]

theorem create_icmp_packet_eq (id seq ps ts : Nat) (rand : Nat → Nat)
    (hid : id ≤ 65535) (hseq : seq ≤ 65535) :
    create_icmp_packet id seq ps ts rand =
      some (icmpHeaderBytes (calculate_checksum (icmpHeaderBytes 0 id seq ++
        icmpDataBytes ps ts rand)) id seq ++ icmpDataBytes ps ts rand) := by
  simp [create_icmp_packet, pack_BBHHH_eq, hid, hseq, calculate_checksum_le,
    icmpHeaderBytes, icmpDataBytes, natToBytesBE_length]

theorem create_udp_packet_eq (id port ps ts : Nat) (rand : Nat → Nat)
    (hid : id ≤ 65535) (hport : port ≤ 65535) (hps : ps ≤ 65535) :
    create_udp_packet id port ps ts rand =
      some (udpHeaderBytes id port ((udpDataBytes id ps ts rand).length + 8) ++
        udpDataBytes id ps ts rand) := by
  have hid32 : id ≤ 4294967295 := by omega
  have hlen2 : 4 + (8 + (ps - 8 - 4 - 8)) ≤ 65527 := by omega
  have harg : 4 + (8 + (ps - 8 - 4 - 8)) + 8 = 12 + (ps - 20) + 8 := by omega
  simp [create_udp_packet, packI, packH, pack_HHHH, hid32, hid, hport,
    udpHeaderBytes, udpDataBytes, natToBytesBE_length, udpDataBytes_length,
    hlen2, harg]

theorem create_udp_packet_none (id port ps ts : Nat) (rand : Nat → Nat)
    (hps : 65536 ≤ ps) : create_udp_packet id port ps ts rand = none := by
  by_cases hid32 : id ≤ 4294967295
  · by_cases hid : id ≤ 65535
    · by_cases hport : port ≤ 65535
      · have hlen2 : ¬ (4 + (8 + (ps - 8 - 4 - 8)) ≤ 65527) := by omega
        simp [create_udp_packet, packI, packH, pack_HHHH, hid32, hid, hport,
          natToBytesBE_length, hlen2]
      · simp [create_udp_packet, packI, packH, pack_HHHH, hid32, hid, hport]
    · simp [create_udp_packet, packI, packH, pack_HHHH, hid32, hid]
  · simp [create_udp_packet, packI, hid32]

/-- C5 (amended): `calculate_checksum` complements the once-folded word sum
(odd inputs zero-padded first); this agrees with the fully-folded 16-bit
one's-complement checksum of the spec exactly when the single carry fold
already lands below `2^16` (the counterexample shows they differ otherwise);
and the checksum written into the ICMPv4 echo header is
`calculate_checksum` of the zero-checksum header concatenated with the
final payload (timestamp plus fixed padding), re-packed into the header. -/
theorem c5_checksum_amended (data : List Nat) (id seq ps ts : Nat)
    (rand : Nat → Nat)
    (h1 : wordSum (if data.length % 2 ≠ 0 then data ++ [0] else data) /
        65536 +
      wordSum (if data.length % 2 ≠ 0 then data ++ [0] else data) % 65536 <
        65536)
    (h2 : id ≤ 65535) (h3 : seq ≤ 65535) :
    calculate_checksum data = onesComplementChecksum data ∧
    create_icmp_packet id seq ps ts rand =
      some (icmpHeaderBytes (calculate_checksum (icmpHeaderBytes 0 id seq ++
        icmpDataBytes ps ts rand)) id seq ++ icmpDataBytes ps ts rand) := by
  constructor
  · simp only [calculate_checksum, onesComplementChecksum]
    rw [fold16_single _ h1, Nat.mod_eq_of_lt h1]
  · exact create_icmp_packet_eq id seq ps ts rand h2 h3

/-- Witness for C5 (amended) at `data = [0, 1]` (word sum 1, single fold
suffices) and the ICMPv4 builder at identifier 1, sequence 2, size 64. -/
theorem c5_checksum_amended_witness :
    (wordSum (if ([0, 1] : List Nat).length % 2 ≠ 0 then [0, 1] ++ [0]
        else [0, 1]) / 65536 +
      wordSum (if ([0, 1] : List Nat).length % 2 ≠ 0 then [0, 1] ++ [0]
        else [0, 1]) % 65536 < 65536 ∧
      (1 : Nat) ≤ 65535 ∧ (2 : Nat) ≤ 65535) ∧
    (calculate_checksum [0, 1] = onesComplementChecksum [0, 1] ∧
      create_icmp_packet 1 2 64 0 (fun _ => 0) =
        some (icmpHeaderBytes (calculate_checksum
          (icmpHeaderBytes 0 1 2 ++ icmpDataBytes 64 0 (fun _ => 0))) 1 2 ++
          icmpDataBytes 64 0 (fun _ => 0))) :=
  ⟨⟨by decide, by decide, by decide⟩,
    c5_checksum_amended [0, 1] 1 2 64 0 (fun _ => 0) (by decide) (by decide)
      (by decide)⟩

/-- C6 (amended): with the identifier, sequence and port within their
16-bit pack formats, `create_icmp_packet` never throws and its length is
exactly `requestedSize` for `requestedSize ≥ 16` and 16 below (padding
clamped to zero), and `create_udp_packet` never throws and has length
exactly `requestedSize` for `20 ≤ requestedSize ≤ 65535` (20 below);
a UDP `requestedSize` above 65535 overflows the 16-bit header length
field `len(data) + 8` and the builder throws `struct.error`. -/
theorem c6_packet_lengths_amended (id seq port ps ts : Nat)
    (rand : Nat → Nat) (hid : id ≤ 65535) (hseq : seq ≤ 65535)
    (hport : port ≤ 65535) :
    (∃ p, create_icmp_packet id seq ps ts rand = some p ∧
      p.length = max 16 ps) ∧
    (ps ≤ 65535 → ∃ p, create_udp_packet id port ps ts rand = some p ∧
      p.length = max 20 ps) ∧
    (65536 ≤ ps → create_udp_packet id port ps ts rand = none) := by
  refine ⟨⟨_, create_icmp_packet_eq id seq ps ts rand hid hseq, ?_⟩,
    fun hps => ⟨_, create_udp_packet_eq id port ps ts rand hid hport hps, ?_⟩,
    fun hps => create_udp_packet_none id port ps ts rand hps⟩
  · rw [List.length_append, icmpHeaderBytes_length, icmpDataBytes_length]
    omega
  · rw [List.length_append, udpDataBytes_length]
    simp [udpHeaderBytes, natToBytesBE_length]
    omega

/-- Witness for C6 (amended) at identifier 1, sequence 2, port 33434,
requested sizes 64 (sat) and the bound checks. -/
theorem c6_packet_lengths_amended_witness :
    ((1 : Nat) ≤ 65535 ∧ (2 : Nat) ≤ 65535 ∧ (33434 : Nat) ≤ 65535) ∧
    ((∃ p, create_icmp_packet 1 2 64 0 (fun _ => 0) = some p ∧
        p.length = max 16 64) ∧
      ((64 : Nat) ≤ 65535 → ∃ p,
        create_udp_packet 1 33434 64 0 (fun _ => 0) = some p ∧
        p.length = max 20 64) ∧
      ((65536 : Nat) ≤ 64 →
        create_udp_packet 1 33434 64 0 (fun _ => 0) = none)) :=
  ⟨⟨by decide, by decide, by decide⟩,
    c6_packet_lengths_amended 1 2 33434 64 0 (fun _ => 0) (by decide)
      (by decide) (by decide)⟩

/-- C4: the entry point validates its parameters in source order (lines
867–875) before consulting the resolver oracle or any strategy: an invalid
protocol, hop count, or timeout makes the run an error (`ValueError`) whose
value — hence the absence of any yielded record — is independent of the
resolver, network, DNS and tracert-output oracles. -/
theorem c4_invalid_params_fail_fast
    (resolver : String → Bool → Option (String × Nat))
    (net : Nat → Nat → Option (String × ℚ)) (dns : String → Option String)
    (isW : Bool) (wl : List WinLine) (target : String) (mh : ℤ) (t : ℚ)
    (rd : Bool) (protocol : String) (mr : Nat) (ipv6 : Bool)
    (h : protocol ∉ (["udp", "icmp", "tcp"] : List String) ∨
      (mh < 1 ∨ mh > 255) ∨ t ≤ 0) :
    (∃ msg, traceroute resolver net dns isW wl target mh t rd protocol mr
      ipv6 = Except.error msg) ∧
    (∀ resolver2 net2 dns2 wl2,
      traceroute resolver net dns isW wl target mh t rd protocol mr ipv6 =
      traceroute resolver2 net2 dns2 isW wl2 target mh t rd protocol mr
        ipv6) := by
  by_cases h1 : protocol ∉ (["udp", "icmp", "tcp"] : List String)
  · exact ⟨⟨ERROR_UNSUPPORTED_PROTOCOL protocol,
      by simp only [traceroute, if_pos h1]⟩,
      fun r2 n2 d2 w2 => by simp only [traceroute, if_pos h1]⟩
  · by_cases h2 : mh < 1 ∨ mh > 255
    · exact ⟨⟨ERROR_INVALID_HOPS mh,
        by simp only [traceroute, if_neg h1, if_pos h2]⟩,
        fun r2 n2 d2 w2 => by simp only [traceroute, if_neg h1, if_pos h2]⟩
    · have h3 : t ≤ 0 := by tauto
      exact ⟨⟨ERROR_INVALID_TIMEOUT t,
        by simp only [traceroute, if_neg h1, if_neg h2, if_pos h3]⟩,
        fun r2 n2 d2 w2 =>
          by simp only [traceroute, if_neg h1, if_neg h2, if_pos h3]⟩

/-- Witness for C4 at the unsupported protocol string `"http"`, maxHops 30,
timeout 3. -/
theorem c4_invalid_params_fail_fast_witness :
    (("http" : String) ∉ (["udp", "icmp", "tcp"] : List String) ∨
      ((30 : ℤ) < 1 ∨ (30 : ℤ) > 255) ∨ ((3 : ℚ) ≤ 0)) ∧
    ((∃ msg, traceroute (fun _ _ => none) (fun _ _ => none) (fun _ => none)
        false [] "example.com" 30 3 true "http" 3 false =
        Except.error msg) ∧
      (∀ resolver2 net2 dns2 wl2,
        traceroute (fun _ _ => none) (fun _ _ => none) (fun _ => none)
          false [] "example.com" 30 3 true "http" 3 false =
        traceroute resolver2 net2 dns2 false wl2 "example.com" 30 3 true
          "http" 3 false)) :=
  ⟨Or.inl (by decide),
    c4_invalid_params_fail_fast (fun _ _ => none) (fun _ _ => none)
      (fun _ => none) false [] "example.com" 30 3 true "http" 3 false
      (Or.inl (by decide))⟩

/-- C8 (amended): when every one of the `max_retries` attempts at a TTL gets
no response, the socket strategies yield — they do not raise — the sentinel
record `{hop: ttl, ip: '*', hostname: '', delay: '超时'}` with progress
`min(1, ttl/max_hops)` and destination flag false, and the run continues
with the remaining TTLs against an unchanged visited set. The delay
sentinel is the literal `'超时'`; the claimed `'Timeout'` literal is used
only by the Windows fallback. -/
theorem c8_timeout_record_amended (net : Nat → Nat → Option (String × ℚ))
    (dns : String → Option String) (target : String) (rd : Bool)
    (mr mh ttl : Nat) (rest : List Nat) (visited : List String)
    (h : ∀ a, a < mr → net ttl a = none) :
    icmpGo net dns target rd mr mh (ttl :: rest) visited =
      (⟨ttl, "*", "", .timeoutZh, false⟩,
        min 1 ((ttl : ℚ) / (mh : ℚ)), false) ::
        icmpGo net dns target rd mr mh rest visited ∧
    delayString .timeoutZh = "超时" := by
  refine ⟨?_, rfl⟩
  simp only [icmpGo, bestResponse_eq_none net mr ttl h]

/-- Witness for C8 at a network with no responses at all, `max_retries = 3`,
TTL 1 of a 2-hop run. -/
theorem c8_timeout_record_amended_witness :
    (∀ a, a < 3 → (fun (_ _ : Nat) => (none : Option (String × ℚ))) 1 a = none) ∧
    (icmpGo (fun _ _ => none) (fun _ => none) "8.8.8.8" true 3 2 [1, 2] [] =
      (⟨1, "*", "", .timeoutZh, false⟩, min 1 ((1 : ℚ) / (2 : ℚ)), false) ::
        icmpGo (fun _ _ => none) (fun _ => none) "8.8.8.8" true 3 2 [2] [] ∧
      delayString .timeoutZh = "超时") :=
  ⟨fun _ _ => rfl,
    c8_timeout_record_amended (fun _ _ => none) (fun _ => none) "8.8.8.8"
      true 3 2 1 [2] [] (fun _ _ => rfl)⟩

end XHtrace
